import Mathlib

/-!
Verification development for the AI Repo Generator backend
(`src/backend/main.py`).

The Python code is shallowly embedded over `Str := List Char`.  Pure
string routines (`str.strip`, `str.replace`, `str.startswith`, slicing,
the first-brace-to-last-brace regex search) are translated directly.
`json.loads` is modelled by a fuel-indexed recursive-descent parser over
a `Json` value type (numbers are modelled as integers; Python's strict
rejection of raw control characters inside string literals is kept).
`json.dumps` (with `ensure_ascii=False`) is modelled by `dumps`.
Fallible Python code is modelled with `Option`/`Except`: a raised
exception that a tracked `except` clause would catch is an `.error`
value.  The network is abstracted by passing the outcome of each HTTP
call (the buffered completion call, and the line sequence of the
streaming call) as explicit parameters.
-/

set_option maxRecDepth 8000

abbrev Str := List Char

/-- Whitespace set of Python's `str.strip()`. -/
def isPySpace (c : Char) : Bool :=
  c = ' ' || c = '\t' || c = '\n' || c = '\x0d' || c = '\x0b' || c = '\x0c'

/-- Python `str.strip()`: drop leading and trailing whitespace. -/
def pyStrip (l : Str) : Str :=
  ((l.dropWhile isPySpace).reverse.dropWhile isPySpace).reverse

/-- Python `str.startswith(pat)`. -/
def headMatch : Str → Str → Bool
  | [], _ => true
  | _ :: _, [] => false
  | c :: cs, d :: ds => c == d && headMatch cs ds

/-- Python `pat in s` (substring containment test on strings). -/
def isSubstring (pat : Str) : Str → Bool
  | [] => headMatch pat []
  | c :: rest => headMatch pat (c :: rest) || isSubstring pat rest

/-- Fueled worker for `replaceAll`; the fuel bounds the number of scan
steps, each of which consumes at least one character. -/
def replaceAllF (pat repl : Str) : Nat → Str → Str
  | 0, l => l
  | _ + 1, [] => []
  | f + 1, c :: rest =>
    if headMatch pat (c :: rest) then
      repl ++ replaceAllF pat repl f (rest.drop (pat.length - 1))
    else
      c :: replaceAllF pat repl f rest

/-- Python `s.replace(pat, repl)` for a non-empty pattern: replace every
non-overlapping occurrence, scanning left to right. -/
def replaceAll (pat repl l : Str) : Str := replaceAllF pat repl l.length l

/-- The span matched by `re.search(r'\x7b.*\x7d', text, re.DOTALL)`:
the first `{` up to the last `}` after it (greedy), if any. -/
def braceSpan (l : Str) : Option Str :=
  let l1 := l.dropWhile (fun c => c ≠ '{')
  let r := (l1.reverse.dropWhile (fun c => c ≠ '}')).reverse
  if r.isEmpty then none else some r

/-- Decimal digit character for a digit value. -/
def digitChar (m : Nat) : Char :=
  ['0','1','2','3','4','5','6','7','8','9'].getD m '0'

/-- Fueled most-significant-first decimal digit accumulator. -/
def decAux : Nat → Nat → Str → Str
  | 0, _, acc => acc
  | f + 1, n, acc =>
    if n = 0 then acc else decAux f (n / 10) (digitChar (n % 10) :: acc)

/-- Decimal representation of a natural number. -/
def natToDec (n : Nat) : Str :=
  if n = 0 then ['0'] else decAux n n []

/-- Python `repr(n)`/`str(n)` for an integer. -/
def intRepr (n : Int) : Str :=
  if n < 0 then '-' :: natToDec n.natAbs else natToDec n.toNat

/-- Decimal value of a digit string (left fold, as read). -/
def natFromDigits (l : Str) : Nat :=
  l.foldl (fun a c => 10 * a + (c.toNat - 48)) 0

/-- JSON values as produced by Python's `json.loads`.  Numbers are
modelled as integers; objects are the association list of members in
source order (Python's `dict` keeps insertion order; on duplicate keys
`dict` lookup sees the last binding, which `objGet` mirrors). -/
inductive Json where
  | null : Json
  | bool (b : Bool) : Json
  | num (n : Int) : Json
  | str (s : Str) : Json
  | arr (xs : List Json) : Json
  | obj (kvs : List (Str × Json)) : Json

/-- Python `key in d` for a decoded object. -/
def objMem (kvs : List (Str × Json)) (k : Str) : Bool :=
  kvs.any (fun kv => kv.1 == k)

/-- Python `d.get(k, dflt)` for a decoded object: the last binding of
the key wins, as in `dict`. -/
def objGet (kvs : List (Str × Json)) (k : Str) (dflt : Json) : Json :=
  match kvs.reverse.find? (fun kv => kv.1 == k) with
  | some kv => kv.2
  | none => dflt

/-- Escape of one character inside a serialized JSON string
(the short escapes emitted by `json.dumps`). -/
def escChar (c : Char) : Str :=
  if c = '"' then ['\\', '"']
  else if c = '\\' then ['\\', '\\']
  else if c = '\n' then ['\\', 'n']
  else if c = '\t' then ['\\', 't']
  else if c = '\x0d' then ['\\', 'r']
  else [c]

/-- Escaped body of a serialized JSON string. -/
def escBody : Str → Str
  | [] => []
  | c :: cs => escChar c ++ escBody cs

/-- Serialized JSON string literal. -/
def dumpStr (s : Str) : Str := '"' :: escBody s ++ ['"']

mutual
/-- Model of `json.dumps(v, ensure_ascii=False)` with the default
separators `", "` and `": "`. -/
def dumps : Json → Str
  | .null => "null".toList
  | .bool true => "true".toList
  | .bool false => "false".toList
  | .num n => intRepr n
  | .str s => dumpStr s
  | .arr xs => '[' :: dumpsList xs ++ [']']
  | .obj kvs => '{' :: dumpsMembers kvs ++ ['}']

/-- Comma-separated serialization of array elements. -/
def dumpsList : List Json → Str
  | [] => []
  | [x] => dumps x
  | x :: y :: xs => dumps x ++ ", ".toList ++ dumpsList (y :: xs)

/-- Comma-separated serialization of object members. -/
def dumpsMembers : List (Str × Json) → Str
  | [] => []
  | [kv] => dumpStr kv.1 ++ ": ".toList ++ dumps kv.2
  | kv :: kv2 :: kvs =>
    dumpStr kv.1 ++ ": ".toList ++ dumps kv.2 ++ ", ".toList ++
      dumpsMembers (kv2 :: kvs)
end

/-- Characters representable by `dumps` without a `\uXXXX` escape:
everything at or above the space character, plus the three control
characters that get short escapes. -/
def goodChar (c : Char) : Bool :=
  32 ≤ c.toNat || c = '\n' || c = '\t' || c = '\x0d'

def goodStr (s : Str) : Bool := s.all goodChar

mutual
/-- Values whose `dumps` serialization uses no `\uXXXX` escapes. -/
def goodJson : Json → Bool
  | .null => true
  | .bool _ => true
  | .num _ => true
  | .str s => goodStr s
  | .arr xs => goodList xs
  | .obj kvs => goodMembers kvs

def goodList : List Json → Bool
  | [] => true
  | x :: xs => goodJson x && goodList xs

def goodMembers : List (Str × Json) → Bool
  | [] => true
  | kv :: kvs => goodStr kv.1 && goodJson kv.2 && goodMembers kvs
end

/-- JSON whitespace skipped between tokens by Python's decoder. -/
def isJsonWs (c : Char) : Bool :=
  c = ' ' || c = '\t' || c = '\n' || c = '\x0d'

def skipWs (l : Str) : Str := l.dropWhile isJsonWs

/-- Decode one short string escape. -/
def decodeEsc (c : Char) : Option Char :=
  if c = '"' then some '"'
  else if c = '\\' then some '\\'
  else if c = '/' then some '/'
  else if c = 'n' then some '\n'
  else if c = 't' then some '\t'
  else if c = 'r' then some '\x0d'
  else if c = 'b' then some '\x08'
  else if c = 'f' then some '\x0c'
  else none

/-- Value of a hexadecimal digit, if any. -/
def hexVal (c : Char) : Option Nat :=
  if '0' ≤ c ∧ c ≤ '9' then some (c.toNat - 48)
  else if 'a' ≤ c ∧ c ≤ 'f' then some (c.toNat - 87)
  else if 'A' ≤ c ∧ c ≤ 'F' then some (c.toNat - 55)
  else none

/-- Body of a JSON string literal after the opening quote; returns the
decoded characters and the remainder after the closing quote.  Raw
control characters below `0x20` are rejected, as Python's strict-mode
decoder does.  A lone `\uXXXX` escape is decoded when it denotes a
valid scalar value. -/
def parseStrBody : Str → Option (Str × Str)
  | [] => none
  | ch :: rest =>
    if ch = '"' then some ([], rest)
    else if ch = '\\' then
      match rest with
      | [] => none
      | e :: rest2 =>
        if e = 'u' then
          match rest2 with
          | a :: b :: c :: d :: rest3 =>
            match hexVal a, hexVal b, hexVal c, hexVal d with
            | some va, some vb, some vc, some vd =>
              let n := ((va * 16 + vb) * 16 + vc) * 16 + vd
              if h : n.isValidChar then
                match parseStrBody rest3 with
                | some (s, r) => some (Char.ofNatAux n h :: s, r)
                | none => none
              else none
            | _, _, _, _ => none
          | _ => none
        else
          match decodeEsc e with
          | some c =>
            match parseStrBody rest2 with
            | some (s, r) => some (c :: s, r)
            | none => none
          | none => none
    else if ch.toNat < 32 then none
    else
      match parseStrBody rest with
      | some (s, r) => some (ch :: s, r)
      | none => none

/-- Digit run at the head of the input, as a number (JSON integer
body; fractions and exponents are not modelled). -/
def parseNat (l : Str) : Option (Nat × Str) :=
  let ds := l.takeWhile Char.isDigit
  if ds.isEmpty then none else some (natFromDigits ds, l.dropWhile Char.isDigit)

mutual
/-- Fuel-indexed recursive-descent JSON value parser modelling Python's
decoder on the fragment this program feeds it (integer numbers only;
the decoder's rejection of leading zeros is not modelled). -/
def parseVal : Nat → Str → Option (Json × Str)
  | 0, _ => none
  | f + 1, l =>
    match skipWs l with
    | [] => none
    | c :: r =>
      if c = '{' then
        match skipWs r with
        | [] => none
        | c2 :: r2 =>
          if c2 = '}' then some (.obj [], r2)
          else
            match parseMembers f (c2 :: r2) with
            | some (kvs, rest) => some (.obj kvs, rest)
            | none => none
      else if c = '[' then
        match skipWs r with
        | [] => none
        | c2 :: r2 =>
          if c2 = ']' then some (.arr [], r2)
          else
            match parseElems f (c2 :: r2) with
            | some (xs, rest) => some (.arr xs, rest)
            | none => none
      else if c = '"' then
        match parseStrBody r with
        | some (s, rest) => some (.str s, rest)
        | none => none
      else if headMatch ['n', 'u', 'l', 'l'] (c :: r) then some (.null, (c :: r).drop 4)
      else if headMatch ['t', 'r', 'u', 'e'] (c :: r) then some (.bool true, (c :: r).drop 4)
      else if headMatch ['f', 'a', 'l', 's', 'e'] (c :: r) then some (.bool false, (c :: r).drop 5)
      else if c = '-' then
        match parseNat r with
        | some (m, rest) => some (.num (-(m : Int)), rest)
        | none => none
      else if c.isDigit then
        match parseNat (c :: r) with
        | some (m, rest) => some (.num (m : Int), rest)
        | none => none
      else none

/-- One or more comma-separated array elements followed by `]`. -/
def parseElems : Nat → Str → Option (List Json × Str)
  | 0, _ => none
  | f + 1, l =>
    match parseVal f l with
    | none => none
    | some (v, r) =>
      match skipWs r with
      | [] => none
      | c :: r2 =>
        if c = ']' then some ([v], r2)
        else if c = ',' then
          match parseElems f r2 with
          | some (vs, r3) => some (v :: vs, r3)
          | none => none
        else none

/-- One or more comma-separated object members followed by `\x7d`. -/
def parseMembers : Nat → Str → Option (List (Str × Json) × Str)
  | 0, _ => none
  | f + 1, l =>
    match skipWs l with
    | [] => none
    | c :: r =>
      if c = '"' then
        match parseStrBody r with
        | none => none
        | some (k, r1) =>
          match skipWs r1 with
          | [] => none
          | c2 :: r2 =>
            if c2 = ':' then
              match parseVal f r2 with
              | none => none
              | some (v, r3) =>
                match skipWs r3 with
                | [] => none
                | c3 :: r4 =>
                  if c3 = '}' then some ([(k, v)], r4)
                  else if c3 = ',' then
                    match parseMembers f r4 with
                    | some (kvs, r5) => some ((k, v) :: kvs, r5)
                    | none => none
                  else none
            else none
      else none
end

/-- Model of Python `json.loads`: parse one value and require that only
whitespace remains; any failure (raising `JSONDecodeError`) is `none`. -/
def json_loads (l : Str) : Option Json :=
  match parseVal (l.length + 1) l with
  | some (v, rest) => if (skipWs rest).isEmpty then some v else none
  | none => none

/-- Quoted form of a string in Python `repr`: single quotes, unless the
string holds a single quote and no double quote. -/
def reprQuote (s : Str) : Char :=
  if '\'' ∈ s ∧ '"' ∉ s then '"' else '\''

/-- Escape of one character inside a Python string `repr` with the
given quote character (short escapes only; `\xXX` escapes for other
non-printables are not modelled). -/
def reprEsc (q c : Char) : Str :=
  if c = '\\' then ['\\', '\\']
  else if c = q then ['\\', q]
  else if c = '\n' then ['\\', 'n']
  else if c = '\x0d' then ['\\', 'r']
  else if c = '\t' then ['\\', 't']
  else [c]

def reprEscBody (q : Char) : Str → Str
  | [] => []
  | c :: cs => reprEsc q c ++ reprEscBody q cs

/-- Python `repr` of a string. -/
def pyReprOfStr (s : Str) : Str :=
  let q := reprQuote s
  q :: reprEscBody q s ++ [q]

mutual
/-- Python `repr(v)` for a `json.loads` result. -/
def pyRepr : Json → Str
  | .null => "None".toList
  | .bool true => "True".toList
  | .bool false => "False".toList
  | .num n => intRepr n
  | .str s => pyReprOfStr s
  | .arr xs => '[' :: pyReprList xs ++ [']']
  | .obj kvs => '{' :: pyReprMembers kvs ++ ['}']

def pyReprList : List Json → Str
  | [] => []
  | [x] => pyRepr x
  | x :: y :: xs => pyRepr x ++ ", ".toList ++ pyReprList (y :: xs)

def pyReprMembers : List (Str × Json) → Str
  | [] => []
  | [kv] => pyReprOfStr kv.1 ++ ": ".toList ++ pyRepr kv.2
  | kv :: kv2 :: kvs =>
    pyReprOfStr kv.1 ++ ": ".toList ++ pyRepr kv.2 ++ ", ".toList ++
      pyReprMembers (kv2 :: kvs)
end

/-- Python `str(v)` for a `json.loads` result: identity on strings,
`repr` otherwise. -/
def pyStr : Json → Str
  | .str s => s
  | v => pyRepr v

/-- Embedding of `extract_json_from_response` (src/backend/main.py,
lines 148-180): strip, remove markdown fences, regex-search the first
`\x7b` … last `\x7d` span and parse it strictly, retry the span with
newline/tab escaping, then try the whole (fence-stripped) text, and
return `none` when every attempt fails. -/
def extract_json_from_response (text0 : Str) : Option Json :=
  let text1 := pyStrip text0
  let text :=
    if headMatch "```json".toList text1 then
      replaceAll "```".toList [] (replaceAll "```json".toList [] text1)
    else if headMatch "```".toList text1 then
      replaceAll "```".toList [] text1
    else text1
  match braceSpan text with
  | some m =>
    let json_str := pyStrip m
    match json_loads json_str with
    | some v => some v
    | none =>
      let fixed := replaceAll ['\t'] ['\\', 't'] (replaceAll ['\n'] ['\\', 'n'] json_str)
      match json_loads fixed with
      | some v => some v
      | none => json_loads text
  | none => json_loads text

/-- The strings that `extract_json_from_response` hands to `json.loads`
in order: the stripped brace span, its newline/tab-escaped repair, and
the fence-stripped text (only the last when no span is found). -/
def extractCandidates (text0 : Str) : List Str :=
  let text1 := pyStrip text0
  let text :=
    if headMatch "```json".toList text1 then
      replaceAll "```".toList [] (replaceAll "```json".toList [] text1)
    else if headMatch "```".toList text1 then
      replaceAll "```".toList [] text1
    else text1
  match braceSpan text with
  | some m =>
    let json_str := pyStrip m
    [json_str, replaceAll ['\t'] ['\\', 't'] (replaceAll ['\n'] ['\\', 'n'] json_str), text]
  | none => [text]

/-- Outcome classes of a raised Python exception as the orchestrator's
`except` clauses distinguish them: `requests` timeout, other `requests`
errors, and everything else. -/
inductive PyErr where
  | timeout : PyErr
  | reqError (msg : Str) : PyErr
  | other (msg : Str) : PyErr

/-- Python `len(v)` for a `json.loads` result; `TypeError` on
non-container values. -/
def pyLen : Json → Except Unit Nat
  | .str s => .ok s.length
  | .arr xs => .ok xs.length
  | .obj kvs => .ok kvs.length
  | _ => .error ()

/-- Python `k in v` for a string key: dict key lookup, list membership,
substring test on strings; `TypeError` otherwise. -/
def pyIn (k : Str) : Json → Except Unit Bool
  | .obj kvs => .ok (objMem kvs k)
  | .arr xs => .ok (xs.any (fun x => match x with | .str s => s == k | _ => false))
  | .str s => .ok (isSubstring k s)
  | _ => .error ()

/-- Python `v[0]`: head of a list, first character of a string;
`IndexError`/`KeyError`/`TypeError` (all `none`) otherwise. -/
def pyIndex0 : Json → Option Json
  | .arr (x :: _) => some x
  | .str (c :: _) => some (.str [c])
  | _ => none

/-- Python `v[k]` for a string key `k`: `none` models the raised
`KeyError`/`TypeError`. -/
def pyIndex (j : Json) (k : Str) : Option Json :=
  match j with
  | .obj kvs => if objMem kvs k then some (objGet kvs k .null) else none
  | _ => none

/-- The per-line delta extraction of `query_groq_stream`
(src/backend/main.py, lines 237-240) applied to a decoded `data`
payload: `ok (some s)` appends `s`, `ok none` contributes nothing, and
`error` models a raised exception that its `except json.JSONDecodeError`
clause does not catch. -/
def lineDelta (data : Json) : Except Unit (Option Str) := do
  let hasChoices ← pyIn "choices".toList data
  if hasChoices then
    match data with
    | .obj kvs =>
      let ch := objGet kvs "choices".toList .null
      let n ← pyLen ch
      if n > 0 then
        match pyIndex0 ch with
        | none => .error ()
        | some first =>
          match first with
          | .obj fkvs =>
            let delta := objGet fkvs "delta".toList (.obj [])
            let hasContent ← pyIn "content".toList delta
            if hasContent then
              match delta with
              | .obj dkvs =>
                match objGet dkvs "content".toList .null with
                | .str s => .ok (some s)
                | _ => .error ()
              | _ => .error ()
            else .ok none
          | _ => .error ()
      else .ok none
    | _ => .error ()
  else .ok none

def dataMarker : Str := "data: ".toList

def doneLine : Str := "data: [DONE]".toList

/-- Embedding of the accumulation loop of `query_groq_stream`
(src/backend/main.py, lines 228-244) over the decoded response lines:
skip falsy lines and lines without the `data: ` marker, stop at the
terminator sentinel, skip lines whose payload fails JSON parsing, fold
content deltas into the accumulator in arrival order, and propagate
(`.error`) any other raised exception. -/
def streamAccum : List Str → Str → Except Unit Str
  | [], acc => .ok acc
  | line :: rest, acc =>
    if line.isEmpty then streamAccum rest acc
    else if headMatch dataMarker line then
      if pyStrip line == doneLine then .ok acc
      else
        match json_loads (line.drop 6) with
        | none => streamAccum rest acc
        | some data =>
          match lineDelta data with
          | .ok (some s) => streamAccum rest (acc ++ s)
          | .ok none => streamAccum rest acc
          | .error _ => .error ()
    else streamAccum rest acc

/-- Model of `query_groq_stream` on the decoded line sequence of a successful
HTTP response: the accumulated content, or a raised exception. -/
def query_groq_stream (lines : List Str) : Except Unit Str :=
  streamAccum lines []

/-- The streaming fallback call as the orchestrator observes it: the
HTTP call itself may raise (`.error e` on the network side), and a
shape error inside the accumulation loop raises a `TypeError`-class
exception, which is not a `requests` error. -/
def runStream : Except PyErr (List Str) → Except PyErr Str
  | .error e => .error e
  | .ok lines =>
    match query_groq_stream lines with
    | .ok s => .ok s
    | .error _ => .error (.other "TypeError".toList)

/-- Extraction of `response['choices'][0]['message']['content']` from the decoded
buffered-mode envelope; `none` models a raised indexing error, which the
bare `except:` of `event_stream` catches. -/
def getContent (env : Json) : Option Json := do
  let ch ← pyIndex env "choices".toList
  let first ← pyIndex0 ch
  let msg ← pyIndex first "message".toList
  pyIndex msg "content".toList

/-- Python truthiness of a `json.loads` result. -/
def truthy : Json → Bool
  | .null => false
  | .bool b => b
  | .num n => n != 0
  | .str s => !s.isEmpty
  | .arr xs => !xs.isEmpty
  | .obj kvs => !kvs.isEmpty

def rkey : Str := "repository_name".toList

def dkey : Str := "description".toList

def ckey : Str := "readme_content".toList

/-- Model of `all(key in parsed_json for key in ["repository_name",
"description", "readme_content"])` with Python's short-circuit order;
`.error` models a raised `TypeError`. -/
def keyCheck (j : Json) : Except Unit Bool := do
  let a ← pyIn rkey j
  if a then
    let b ← pyIn dkey j
    if b then pyIn ckey j else .ok false
  else .ok false

/-- The cleaned artifact of the valid branch (src/backend/main.py,
lines 313-317). -/
structure CleanData where
  repository_name : Str
  description : Str
  readme_content : Str
deriving DecidableEq

/-- The fallback artifact (src/backend/main.py, lines 326-332). -/
structure FallbackData where
  repository_name : Str
  description : Str
  readme_content : Str
  raw_response : Str
  note : Str
deriving DecidableEq

/-- Payload of a terminal `done` event; the source serializes it with
`json.dumps` into the SSE data line. -/
inductive Payload where
  | clean (c : CleanData) : Payload
  | fallback (f : FallbackData) : Payload
deriving DecidableEq

/-- One SSE event yielded by `event_stream`: a progress status line, a
terminal `done` event, or a terminal `error` event. -/
inductive Event where
  | status (message : Str) : Event
  | done (p : Payload) : Event
  | errorEv (errMsg code : Str) : Event
deriving DecidableEq

def isStatusEvent : Event → Bool
  | .status _ => true
  | _ => false

def isTerminalEvent : Event → Bool
  | .status _ => false
  | _ => true

def isFallbackDone : Event → Bool
  | .done (.fallback _) => true
  | _ => false

/-- The `clean_data` dict of the valid branch: trim each field (after coercing
with `str`) and truncate the name to 50 and the description to 200
characters. -/
def clean_data (kvs : List (Str × Json)) : CleanData :=
  { repository_name := (pyStrip (pyStr (objGet kvs rkey (.str [])))).take 50
    description := (pyStrip (pyStr (objGet kvs dkey (.str [])))).take 200
    readme_content := pyStrip (pyStr (objGet kvs ckey (.str []))) }

/-- The templated fallback README, embedding the user's prompt
(src/backend/main.py, line 329; the `\\n` pairs are literal
backslash-n sequences in the source f-string). -/
def fallbackReadme (userPrompt : Str) : Str :=
  "# AI Generated Project 🚀\\n\\nThis project was generated based on: ".toList ++
    userPrompt ++
    "\\n\\n## Features\\n\\n- AI-powered functionality\\n- Modern tech stack\\n- Easy to customize\\n\\n## Getting Started\\n\\n```bash\\ngit clone <repo-url>\\ncd project\\nnpm install\\nnpm start\\n```\\n\\n## License\\n\\nMIT License".toList

/-- The fallback artifact built when parsing/validation fails. -/
def fallback_response (userPrompt fullResponse : Str) : FallbackData :=
  { repository_name := "ai-generated-project".toList
    description := "AI-generated project based on user requirements".toList
    readme_content := fallbackReadme userPrompt
    raw_response := fullResponse.take 500
    note := "Fallback response due to JSON parsing issues".toList }

def genMessage : Str := "🤖 Generating repository...".toList

def procMessage : Str := "📝 Processing response...".toList

def timeoutEvent : Event :=
  .errorEv "Request timeout - please try again".toList "TIMEOUT".toList

def apiErrorEvent : Event :=
  .errorEv "AI service temporarily unavailable".toList "API_ERROR".toList

def internalErrorEvent : Event :=
  .errorEv "Internal server error".toList "INTERNAL_ERROR".toList

/-- Lines 304-333 of `event_stream`: extract, validate, and build the
single terminal event for a completion text.  An exception raised while
evaluating the condition or cleaning (`in`/`.get` on an unsuitable
parse result) is caught by the outermost `except Exception` clause,
giving the generic internal-error event. -/
def processBody (userPrompt fullResponse : Str) : Event :=
  match extract_json_from_response fullResponse with
  | none => .done (.fallback (fallback_response userPrompt fullResponse))
  | some parsed =>
    if truthy parsed then
      match keyCheck parsed with
      | .error _ => internalErrorEvent
      | .ok false => .done (.fallback (fallback_response userPrompt fullResponse))
      | .ok true =>
        match parsed with
        | .obj kvs => .done (.clean (clean_data kvs))
        | _ => internalErrorEvent
    else .done (.fallback (fallback_response userPrompt fullResponse))

/-- The terminal event the outer `except` clauses produce for an
exception raised by the streaming retry. -/
def errorEventFor : PyErr → Event
  | .timeout => timeoutEvent
  | .reqError _ => apiErrorEvent
  | .other _ => internalErrorEvent

/-- The events emitted after the buffered call fails (the bare
`except:` branch, lines 293-297): a second status event, then the
streaming retry decides the outcome. -/
def retryEvents (userPrompt : Str) (streamNet : Except PyErr (List Str)) : List Event :=
  Event.status procMessage ::
    (match runStream streamNet with
     | .ok s => [processBody userPrompt s]
     | .error e => [errorEventFor e])

/-- Embedding of the `event_stream` generator (src/backend/main.py,
lines 284-346) as the finite list of events it yields, given the
outcome of the buffered completion call and of the streaming call.  A
non-string `content` leaf makes the later `len`/`.strip()` calls raise
outside the inner `try`, producing the internal-error event. -/
def event_stream (userPrompt : Str) (completeRes : Except PyErr Json)
    (streamNet : Except PyErr (List Str)) : List Event :=
  Event.status genMessage ::
    (match completeRes with
     | .ok env =>
       match getContent env with
       | some (.str s) => [processBody userPrompt s]
       | some _ => [internalErrorEvent]
       | none => retryEvents userPrompt streamNet
     | .error _ => retryEvents userPrompt streamNet)

/-- The `RepoRequest` validation constraint (src/backend/main.py,
lines 103-109): pydantic checks `min_length`/`max_length` on the raw,
untrimmed prompt. -/
def promptValid (prompt : Str) : Bool :=
  5 ≤ prompt.length && prompt.length ≤ 500

/-- The `/generate_repo/` endpoint (src/backend/main.py, lines
255-348): a prompt failing validation is rejected (`none`) before the
event stream exists; otherwise the handler strips the prompt and
returns the event stream. -/
def generate_repo (prompt : Str) (completeRes : Except PyErr Json)
    (streamNet : Except PyErr (List Str)) : Option (List Event) :=
  if promptValid prompt then
    some (event_stream (pyStrip prompt) completeRes streamNet)
  else none

/-! ### String-utility lemmas -/

theorem headMatch_append (l m : Str) : headMatch l (l ++ m) = true := by
  induction l with
  | nil => rfl
  | cons c cs ih => simp [headMatch, ih]

theorem headMatch_ne_first {p c : Char} (ps r : Str) (h : p ≠ c) :
    headMatch (p :: ps) (c :: r) = false := by
  simp [headMatch, h]

theorem headMatch_exists {pat l : Str} (h : headMatch pat l = true) :
    ∃ t, l = pat ++ t := by
  induction pat generalizing l with
  | nil => exact ⟨l, rfl⟩
  | cons p ps ih =>
    cases l with
    | nil => simp [headMatch] at h
    | cons c cs =>
      simp only [headMatch, Bool.and_eq_true, beq_iff_eq] at h
      obtain ⟨rfl, h2⟩ := h
      obtain ⟨t, rfl⟩ := ih h2
      exact ⟨t, rfl⟩

theorem dropWhile_append_all {p : Char → Bool} {l₁ : Str} (l₂ : Str)
    (h : ∀ c ∈ l₁, p c = true) :
    List.dropWhile p (l₁ ++ l₂) = List.dropWhile p l₂ := by
  induction l₁ with
  | nil => rfl
  | cons c cs ih =>
    simp only [List.cons_append, List.dropWhile_cons, h c (by simp)]
    exact ih (fun x hx => h x (by simp [hx]))

theorem dropWhile_cons_false {p : Char → Bool} {c : Char} (l : Str) (h : p c = false) :
    List.dropWhile p (c :: l) = c :: l := by
  simp [List.dropWhile_cons, h]

theorem takeWhile_append_all {p : Char → Bool} {l₁ : Str} (l₂ : Str)
    (h : ∀ c ∈ l₁, p c = true) :
    List.takeWhile p (l₁ ++ l₂) = l₁ ++ List.takeWhile p l₂ := by
  induction l₁ with
  | nil => rfl
  | cons c cs ih =>
    simp only [List.cons_append, List.takeWhile_cons, h c (by simp)]
    simp [ih (fun x hx => h x (by simp [hx]))]

theorem takeWhile_cons_false {p : Char → Bool} {c : Char} (l : Str) (h : p c = false) :
    List.takeWhile p (c :: l) = [] := by
  simp [List.takeWhile_cons, h]

theorem pyStrip_eq_self {l : Str}
    (h1 : ∀ c, l.head? = some c → isPySpace c = false)
    (h2 : ∀ c, l.getLast? = some c → isPySpace c = false) :
    pyStrip l = l := by
  unfold pyStrip
  cases l with
  | nil => rfl
  | cons c cs =>
    rw [dropWhile_cons_false _ (h1 c rfl)]
    have key : List.dropWhile isPySpace (c :: cs).reverse = (c :: cs).reverse := by
      cases hr : (c :: cs).reverse with
      | nil => rfl
      | cons d ds =>
        apply dropWhile_cons_false
        apply h2
        rw [← List.head?_reverse, hr]
        rfl
    rw [key, List.reverse_reverse]

theorem replaceAllF_nil (pat repl : Str) (f : Nat) : replaceAllF pat repl f [] = [] := by
  cases f <;> rfl

theorem replaceAllF_fuel (pat repl : Str) :
    ∀ f g l, l.length ≤ f → l.length ≤ g →
      replaceAllF pat repl f l = replaceAllF pat repl g l := by
  intro f
  induction f with
  | zero =>
    intro g l hf _
    have : l = [] := by
      cases l with
      | nil => rfl
      | cons c cs => simp at hf
    subst this
    simp [replaceAllF, replaceAllF_nil]
  | succ f ih =>
    intro g l hf hg
    cases l with
    | nil => simp [replaceAllF_nil]
    | cons c cs =>
      cases g with
      | zero => simp at hg
      | succ g =>
        have hlen : cs.length ≤ f ∧ cs.length ≤ g := by
          simp only [List.length_cons] at hf hg
          omega
        have hdrop : (cs.drop (pat.length - 1)).length ≤ f ∧
            (cs.drop (pat.length - 1)).length ≤ g := by
          have := List.length_drop (pat.length - 1) cs
          omega
        simp only [replaceAllF]
        by_cases hm : headMatch pat (c :: cs) = true
        · rw [hm]
          simp only [if_true]
          rw [ih g _ hdrop.1 hdrop.2]
        · rw [Bool.not_eq_true] at hm
          rw [hm]
          simp only [Bool.false_eq_true, if_false]
          rw [ih g _ hlen.1 hlen.2]

theorem replaceAll_cons (pat repl : Str) (c : Char) (rest : Str) :
    replaceAll pat repl (c :: rest) =
      if headMatch pat (c :: rest) then
        repl ++ replaceAll pat repl (rest.drop (pat.length - 1))
      else c :: replaceAll pat repl rest := by
  unfold replaceAll
  simp only [List.length_cons, replaceAllF]
  by_cases hm : headMatch pat (c :: rest) = true
  · rw [hm]
    simp only [if_true]
    congr 1
    apply replaceAllF_fuel
    · have := List.length_drop (pat.length - 1) rest
      omega
    · rfl
  · rw [Bool.not_eq_true] at hm
    rw [hm]
    simp only [Bool.false_eq_true, if_false]

theorem replaceAll_head (p : Char) (ps repl l : Str) :
    replaceAll (p :: ps) repl ((p :: ps) ++ l) = repl ++ replaceAll (p :: ps) repl l := by
  have hm : headMatch (p :: ps) (p :: (ps ++ l)) = true := headMatch_append (p :: ps) l
  rw [show (p :: ps) ++ l = p :: (ps ++ l) from rfl, replaceAll_cons, hm]
  simp only [if_true, List.length_cons, Nat.add_sub_cancel]
  rw [show List.drop ps.length (ps ++ l) = l from List.drop_left ps l]

theorem replaceAll_skip {q : Char} (ps repl : Str) :
    ∀ l tail, (∀ c ∈ l, c ≠ q) →
      replaceAll (q :: ps) repl (l ++ tail) = l ++ replaceAll (q :: ps) repl tail := by
  intro l
  induction l with
  | nil => intro tail _; rfl
  | cons c cs ih =>
    intro tail h
    rw [List.cons_append, replaceAll_cons,
      headMatch_ne_first _ _ (fun he => h c (by simp) he.symm)]
    simp only [Bool.false_eq_true, if_false, List.cons_append]
    rw [ih tail (fun x hx => h x (by simp [hx]))]

/-! ### Brace-span and decimal lemmas -/

theorem braceSpan_of_shape (pre mid post : Str)
    (hpre : ∀ c ∈ pre, c ≠ '{') (hpost : ∀ c ∈ post, c ≠ '}') :
    braceSpan (pre ++ ('{' :: mid ++ ['}']) ++ post) =
      some ('{' :: mid ++ ['}']) := by
  simp only [braceSpan]
  have h1 : List.dropWhile (fun c => c ≠ '{')
      ((pre ++ ('{' :: mid ++ ['}'])) ++ post) = ('{' :: mid ++ ['}']) ++ post := by
    rw [List.append_assoc]
    rw [dropWhile_append_all _ (fun c hc => by simp [hpre c hc])]
    rw [show ('{' :: mid ++ ['}']) ++ post = '{' :: (mid ++ ['}'] ++ post) by simp]
    exact dropWhile_cons_false _ (by simp)
  rw [h1]
  have h2 : (('{' :: mid ++ ['}']) ++ post).reverse =
      post.reverse ++ ('}' :: (mid.reverse ++ ['{'])) := by
    simp
  rw [h2]
  rw [dropWhile_append_all _ (fun c hc => by
    simp only [List.mem_reverse] at hc
    simp [hpost c hc])]
  rw [dropWhile_cons_false _ (by simp)]
  simp

theorem digitChar_isDigit {m : Nat} (h : m < 10) : (digitChar m).isDigit = true := by
  interval_cases m <;> decide

theorem digitChar_val {m : Nat} (h : m < 10) : (digitChar m).toNat - 48 = m := by
  interval_cases m <;> decide

theorem natFromDigits_append_one (l : Str) (c : Char) :
    natFromDigits (l ++ [c]) = 10 * natFromDigits l + (c.toNat - 48) := by
  unfold natFromDigits
  rw [List.foldl_append]
  rfl

theorem decAux_spec (n : Nat) : ∀ f acc, 0 < n → n ≤ f →
    ∃ ds, decAux f n acc = ds ++ acc ∧ ds ≠ [] ∧
      (∀ c ∈ ds, c.isDigit = true) ∧ natFromDigits ds = n := by
  induction n using Nat.strong_induction_on with
  | _ n ih =>
    intro f acc hn hf
    cases f with
    | zero => omega
    | succ f =>
      rw [decAux, if_neg (by omega)]
      by_cases h10 : n / 10 = 0
      · rw [h10]
        have hstep : decAux f 0 (digitChar (n % 10) :: acc) =
            digitChar (n % 10) :: acc := by
          cases f <;> simp [decAux]
        rw [hstep]
        have hmod : n % 10 = n := by omega
        refine ⟨[digitChar (n % 10)], rfl, by simp, ?_, ?_⟩
        · intro c hc
          simp only [List.mem_singleton] at hc
          subst hc
          exact digitChar_isDigit (by omega)
        · show natFromDigits [digitChar (n % 10)] = n
          have : natFromDigits [digitChar (n % 10)] =
              (digitChar (n % 10)).toNat - 48 := by
            simp [natFromDigits]
          rw [this, digitChar_val (by omega), hmod]
      · have hlt : n / 10 < n := Nat.div_lt_self hn (by omega)
        have hle : n / 10 ≤ f := by omega
        obtain ⟨ds, hds, _, hdig, hval⟩ :=
          ih (n / 10) hlt f (digitChar (n % 10) :: acc)
            (Nat.pos_of_ne_zero h10) hle
        refine ⟨ds ++ [digitChar (n % 10)], by rw [hds]; simp, by simp, ?_, ?_⟩
        · intro c hc
          rcases List.mem_append.mp hc with h | h
          · exact hdig c h
          · simp only [List.mem_singleton] at h
            subst h
            exact digitChar_isDigit (by omega)
        · rw [natFromDigits_append_one, hval,
            digitChar_val (Nat.mod_lt _ (by omega))]
          omega

theorem natToDec_spec (n : Nat) :
    natToDec n ≠ [] ∧ (∀ c ∈ natToDec n, c.isDigit = true) ∧
      natFromDigits (natToDec n) = n := by
  by_cases h : n = 0
  · subst h
    refine ⟨by decide, ?_, by decide⟩
    intro c hc
    simp only [natToDec, if_true] at hc
    simp only [List.mem_singleton] at hc
    subst hc
    decide
  · unfold natToDec
    rw [if_neg h]
    obtain ⟨ds, hds, hne, hdig, hval⟩ :=
      decAux_spec n n [] (Nat.pos_of_ne_zero h) le_rfl
    rw [hds]
    simp only [List.append_nil]
    exact ⟨hne, hdig, hval⟩

theorem parseNat_natToDec (n : Nat) (rest : Str)
    (hrest : ∀ c, rest.head? = some c → c.isDigit = false) :
    parseNat (natToDec n ++ rest) = some (n, rest) := by
  obtain ⟨hne, hdig, hval⟩ := natToDec_spec n
  have htw : List.takeWhile Char.isDigit rest = [] := by
    cases rest with
    | nil => rfl
    | cons c cs => exact takeWhile_cons_false _ (hrest c rfl)
  have hdw : List.dropWhile Char.isDigit rest = rest := by
    cases rest with
    | nil => rfl
    | cons c cs => exact dropWhile_cons_false _ (hrest c rfl)
  unfold parseNat
  rw [takeWhile_append_all _ hdig, htw, List.append_nil]
  rw [dropWhile_append_all _ hdig, hdw]
  simp only [List.isEmpty_iff]
  rw [if_neg hne, hval]

/-! ### Parser round-trip preparation -/

mutual
/-- Fuel needed by `parseVal` on a serialized value. -/
def fsize : Json → Nat
  | .null => 1
  | .bool _ => 1
  | .num _ => 1
  | .str _ => 1
  | .arr xs => 1 + esize xs
  | .obj kvs => 1 + msize kvs

/-- Fuel needed by `parseElems` on serialized elements. -/
def esize : List Json → Nat
  | [] => 0
  | x :: xs => fsize x + 1 + esize xs

/-- Fuel needed by `parseMembers` on serialized members. -/
def msize : List (Str × Json) → Nat
  | [] => 0
  | kv :: kvs => fsize kv.2 + 1 + msize kvs
end

/-- First characters a serialized JSON value can start with. -/
def isValHead (c : Char) : Bool :=
  c = '{' || c = '[' || c = '"' || c = 'n' || c = 't' || c = 'f' ||
    c = '-' || c.isDigit

theorem skipWs_all_append {w : Str} (l : Str) (hw : ∀ c ∈ w, isJsonWs c = true) :
    skipWs (w ++ l) = skipWs l :=
  dropWhile_append_all l hw

theorem skipWs_cons_false {c : Char} (l : Str) (h : isJsonWs c = false) :
    skipWs (c :: l) = c :: l :=
  dropWhile_cons_false l h

theorem isDigit_not_ws {c : Char} (h : c.isDigit = true) : isJsonWs c = false := by
  simp only [isJsonWs, Bool.or_eq_false_iff, decide_eq_false_iff_not]
  refine ⟨⟨⟨?_, ?_⟩, ?_⟩, ?_⟩ <;> rintro rfl <;> exact absurd h (by decide)

theorem ne_of_isDigit {c d : Char} (h : c.isDigit = true)
    (hd : d.isDigit = false) : c ≠ d := by
  rintro rfl
  rw [h] at hd
  exact absurd hd (by decide)

theorem isValHead_not_ws {c : Char} (h : isValHead c = true) : isJsonWs c = false := by
  simp only [isValHead, Bool.or_eq_true, decide_eq_true_eq] at h
  rcases h with ((((((rfl | rfl) | rfl) | rfl) | rfl) | rfl) | rfl) | hd
  any_goals decide
  exact isDigit_not_ws hd

theorem isValHead_ne_close {c : Char} (h : isValHead c = true) :
    c ≠ ']' ∧ c ≠ '}' := by
  simp only [isValHead, Bool.or_eq_true, decide_eq_true_eq] at h
  rcases h with ((((((rfl | rfl) | rfl) | rfl) | rfl) | rfl) | rfl) | hd
  · exact ⟨by decide, by decide⟩
  · exact ⟨by decide, by decide⟩
  · exact ⟨by decide, by decide⟩
  · exact ⟨by decide, by decide⟩
  · exact ⟨by decide, by decide⟩
  · exact ⟨by decide, by decide⟩
  · exact ⟨by decide, by decide⟩
  · exact ⟨ne_of_isDigit hd (by decide), ne_of_isDigit hd (by decide)⟩

theorem dumps_head : ∀ v : Json, ∃ c r, dumps v = c :: r ∧ isValHead c = true := by
  intro v
  cases v with
  | null => exact ⟨'n', _, rfl, by decide⟩
  | bool b => cases b with
    | true => exact ⟨'t', _, rfl, by decide⟩
    | false => exact ⟨'f', _, rfl, by decide⟩
  | num n =>
    show ∃ c r, intRepr n = c :: r ∧ isValHead c = true
    unfold intRepr
    by_cases hn : n < 0
    · rw [if_pos hn]
      exact ⟨'-', _, rfl, by decide⟩
    · rw [if_neg hn]
      obtain ⟨hne, hdig, _⟩ := natToDec_spec n.toNat
      cases hD : natToDec n.toNat with
      | nil => exact absurd hD hne
      | cons c r =>
        refine ⟨c, r, rfl, ?_⟩
        have : c.isDigit = true := hdig c (by rw [hD]; simp)
        simp [isValHead, this]
  | str s => exact ⟨'"', _, rfl, by decide⟩
  | arr xs => exact ⟨'[', _, rfl, by decide⟩
  | obj kvs => exact ⟨'{', _, rfl, by decide⟩

theorem goodChar_ge32 {c : Char} (hg : goodChar c = true)
    (h3 : c ≠ '\n') (h4 : c ≠ '\t') (h5 : c ≠ '\x0d') : ¬ (c.toNat < 32) := by
  simp only [goodChar, Bool.or_eq_true, decide_eq_true_eq] at hg
  rcases hg with ((hge | rfl) | rfl) | rfl
  · omega
  · exact absurd rfl h3
  · exact absurd rfl h4
  · exact absurd rfl h5

theorem parseStrBody_escBody (s : Str) (rest : Str) (hs : goodStr s = true) :
    parseStrBody (escBody s ++ '"' :: rest) = some (s, rest) := by
  induction s with
  | nil =>
    show parseStrBody ('"' :: rest) = some ([], rest)
    rw [parseStrBody.eq_def]
    simp
  | cons c cs ih =>
    have hgood : goodChar c = true ∧ goodStr cs = true := by
      simp only [goodStr, List.all_cons, Bool.and_eq_true] at hs
      exact hs
    have ihc := ih hgood.2
    show parseStrBody ((escChar c ++ escBody cs) ++ '"' :: rest) = _
    by_cases h1 : c = '"'
    · subst h1
      show parseStrBody ('\\' :: '"' :: (escBody cs ++ '"' :: rest)) = _
      rw [parseStrBody.eq_def]
      simp [decodeEsc, ihc]
    · by_cases h2 : c = '\\'
      · subst h2
        show parseStrBody ('\\' :: '\\' :: (escBody cs ++ '"' :: rest)) = _
        rw [parseStrBody.eq_def]
        simp [decodeEsc, ihc]
      · by_cases h3 : c = '\n'
        · subst h3
          show parseStrBody ('\\' :: 'n' :: (escBody cs ++ '"' :: rest)) = _
          rw [parseStrBody.eq_def]
          simp [decodeEsc, ihc]
        · by_cases h4 : c = '\t'
          · subst h4
            show parseStrBody ('\\' :: 't' :: (escBody cs ++ '"' :: rest)) = _
            rw [parseStrBody.eq_def]
            simp [decodeEsc, ihc]
          · by_cases h5 : c = '\x0d'
            · subst h5
              show parseStrBody ('\\' :: 'r' :: (escBody cs ++ '"' :: rest)) = _
              rw [parseStrBody.eq_def]
              simp [decodeEsc, ihc]
            · have hesc : escChar c = [c] := by
                simp [escChar, h1, h2, h3, h4, h5]
              rw [hesc]
              show parseStrBody (c :: (escBody cs ++ '"' :: rest)) = _
              rw [parseStrBody.eq_def]
              dsimp only
              rw [if_neg h1, if_neg h2,
                if_neg (goodChar_ge32 hgood.1 h3 h4 h5), ihc]

theorem head_not_digit_cons {c : Char} (hx : c.isDigit = false) (l : Str) :
    ∀ d, (c :: l : Str).head? = some d → d.isDigit = false := by
  intro d hd
  simp only [List.head?_cons, Option.some_inj] at hd
  subst hd
  exact hx

mutual
/-- Round-trip: the parser recovers any serialized good value, given
fuel at least its size, leading whitespace, and a remainder that does
not start with a digit. -/
theorem parseVal_dumps (v : Json) (g : Nat) (w rest : Str)
    (hv : goodJson v = true) (hw : ∀ c ∈ w, isJsonWs c = true)
    (hrest : ∀ c, rest.head? = some c → c.isDigit = false) :
    parseVal (fsize v + g + 1) (w ++ (dumps v ++ rest)) = some (v, rest) := by
  cases v with
  | null =>
    simp only [parseVal]
    rw [show dumps .null ++ rest = 'n' :: 'u' :: 'l' :: 'l' :: rest from rfl]
    rw [skipWs_all_append _ hw, skipWs_cons_false _ (by decide)]
    dsimp only
    simp [headMatch]
  | bool b =>
    cases b with
    | true =>
      simp only [parseVal]
      rw [show dumps (.bool true) ++ rest = 't' :: 'r' :: 'u' :: 'e' :: rest from rfl]
      rw [skipWs_all_append _ hw, skipWs_cons_false _ (by decide)]
      dsimp only
      simp [headMatch]
    | false =>
      simp only [parseVal]
      rw [show dumps (.bool false) ++ rest = 'f' :: 'a' :: 'l' :: 's' :: 'e' :: rest from rfl]
      rw [skipWs_all_append _ hw, skipWs_cons_false _ (by decide)]
      dsimp only
      simp [headMatch]
  | num n =>
    by_cases hn : n < 0
    · have hd : dumps (.num n) = '-' :: natToDec n.natAbs := by
        show intRepr n = _
        rw [intRepr, if_pos hn]
      simp only [parseVal]
      rw [hd, show (('-' :: natToDec n.natAbs) ++ rest) =
        '-' :: (natToDec n.natAbs ++ rest) from rfl]
      rw [skipWs_all_append _ hw, skipWs_cons_false _ (by decide)]
      dsimp only
      rw [if_neg (by decide), if_neg (by decide), if_neg (by decide)]
      rw [headMatch_ne_first _ _ (by decide), headMatch_ne_first _ _ (by decide),
        headMatch_ne_first _ _ (by decide)]
      simp only [Bool.false_eq_true, if_false, if_pos rfl]
      rw [parseNat_natToDec n.natAbs rest hrest]
      dsimp only
      rw [show -((n.natAbs : Nat) : Int) = n from by omega]
      simp
    · have hd : dumps (.num n) = natToDec n.toNat := by
        show intRepr n = _
        rw [intRepr, if_neg hn]
      obtain ⟨hne, hdig, _⟩ := natToDec_spec n.toNat
      cases hD : natToDec n.toNat with
      | nil => exact absurd hD hne
      | cons c r =>
        have hc : c.isDigit = true := hdig c (by rw [hD]; simp)
        simp only [parseVal]
        rw [hd, hD, show ((c :: r) ++ rest) = c :: (r ++ rest) from rfl]
        rw [skipWs_all_append _ hw, skipWs_cons_false _ (isDigit_not_ws hc)]
        dsimp only
        rw [if_neg (ne_of_isDigit hc (by decide)),
          if_neg (ne_of_isDigit hc (by decide)),
          if_neg (ne_of_isDigit hc (by decide))]
        rw [headMatch_ne_first _ _ ((ne_of_isDigit hc (by decide)).symm),
          headMatch_ne_first _ _ ((ne_of_isDigit hc (by decide)).symm),
          headMatch_ne_first _ _ ((ne_of_isDigit hc (by decide)).symm)]
        simp only [Bool.false_eq_true, if_false]
        rw [if_neg (ne_of_isDigit hc (by decide)), if_pos hc]
        rw [show c :: (r ++ rest) = (c :: r) ++ rest from rfl, ← hD]
        rw [parseNat_natToDec n.toNat rest hrest]
        dsimp only
        rw [show ((n.toNat : Nat) : Int) = n from by omega]
  | str s =>
    have hgs : goodStr s = true := by
      simpa [goodJson] using hv
    simp only [parseVal]
    rw [show dumps (.str s) ++ rest = '"' :: (escBody s ++ '"' :: rest) from by
      show dumpStr s ++ rest = _
      simp [dumpStr]]
    rw [skipWs_all_append _ hw, skipWs_cons_false _ (by decide)]
    dsimp only
    rw [if_neg (by decide), if_neg (by decide), if_pos rfl]
    rw [parseStrBody_escBody s rest hgs]
  | arr xs =>
    cases xs with
    | nil =>
      simp only [parseVal]
      rw [show dumps (.arr []) ++ rest = '[' :: (']' :: rest) from rfl]
      rw [skipWs_all_append _ hw, skipWs_cons_false _ (by decide)]
      dsimp only
      rw [if_neg (by decide), if_pos rfl]
      rw [skipWs_cons_false _ (by decide)]
      dsimp only
      rw [if_pos rfl]
    | cons x xs2 =>
      have hgl : goodList (x :: xs2) = true := by
        simpa [goodJson] using hv
      obtain ⟨c0, r0, h0, hval0⟩ := dumps_head x
      have hT : ∃ T, dumpsList (x :: xs2) = c0 :: (r0 ++ T) := by
        cases xs2 with
        | nil => exact ⟨[], by simp [dumpsList, h0]⟩
        | cons y ys =>
          refine ⟨", ".toList ++ dumpsList (y :: ys), ?_⟩
          rw [dumpsList, h0]
          simp
      obtain ⟨T, hDL⟩ := hT
      rw [show fsize (.arr (x :: xs2)) + g + 1 =
        (esize (x :: xs2) + g + 1) + 1 from by simp [fsize]; omega]
      simp only [parseVal]
      rw [show dumps (.arr (x :: xs2)) ++ rest =
        '[' :: (dumpsList (x :: xs2) ++ (']' :: rest)) from by
          show ('[' :: dumpsList (x :: xs2) ++ [']']) ++ rest = _
          simp]
      rw [skipWs_all_append _ hw, skipWs_cons_false _ (by decide)]
      dsimp only
      rw [if_neg (by decide), if_pos rfl]
      rw [hDL, show (c0 :: (r0 ++ T)) ++ (']' :: rest) =
        c0 :: ((r0 ++ T) ++ (']' :: rest)) from rfl]
      rw [skipWs_cons_false _ (isValHead_not_ws hval0)]
      dsimp only
      rw [if_neg (isValHead_ne_close hval0).1]
      rw [show c0 :: ((r0 ++ T) ++ (']' :: rest)) =
        [] ++ (dumpsList (x :: xs2) ++ (']' :: rest)) from by rw [hDL]; simp]
      rw [parseElems_dumps (x :: xs2) g [] rest (by simp) hgl (by simp)]
  | obj kvs =>
    cases kvs with
    | nil =>
      simp only [parseVal]
      rw [show dumps (.obj []) ++ rest = '{' :: ('}' :: rest) from rfl]
      rw [skipWs_all_append _ hw, skipWs_cons_false _ (by decide)]
      dsimp only
      rw [if_pos rfl]
      rw [skipWs_cons_false _ (by decide)]
      dsimp only
      rw [if_pos rfl]
    | cons kv kvs2 =>
      have hgm : goodMembers (kv :: kvs2) = true := by
        simpa [goodJson] using hv
      rw [show fsize (.obj (kv :: kvs2)) + g + 1 =
        (msize (kv :: kvs2) + g + 1) + 1 from by simp [fsize]; omega]
      simp only [parseVal]
      rw [show dumps (.obj (kv :: kvs2)) ++ rest =
        '{' :: (dumpsMembers (kv :: kvs2) ++ ('}' :: rest)) from by
          show ('{' :: dumpsMembers (kv :: kvs2) ++ ['}']) ++ rest = _
          simp]
      rw [skipWs_all_append _ hw, skipWs_cons_false _ (by decide)]
      dsimp only
      rw [if_pos rfl]
      have hDM : ∃ T, dumpsMembers (kv :: kvs2) =
          '"' :: ((escBody kv.1 ++ ['"']) ++ T) := by
        cases kvs2 with
        | nil =>
          refine ⟨": ".toList ++ dumps kv.2, ?_⟩
          rw [dumpsMembers]
          simp [dumpStr]
        | cons kv2 kvss =>
          refine ⟨": ".toList ++ dumps kv.2 ++ ", ".toList ++
            dumpsMembers (kv2 :: kvss), ?_⟩
          rw [dumpsMembers]
          simp [dumpStr]
      obtain ⟨T, hDM⟩ := hDM
      rw [hDM, show ('"' :: ((escBody kv.1 ++ ['"']) ++ T)) ++ ('}' :: rest) =
        '"' :: (((escBody kv.1 ++ ['"']) ++ T) ++ ('}' :: rest)) from rfl]
      rw [skipWs_cons_false _ (by decide)]
      dsimp only
      rw [if_neg (by decide)]
      rw [show '"' :: (((escBody kv.1 ++ ['"']) ++ T) ++ ('}' :: rest)) =
        [] ++ (dumpsMembers (kv :: kvs2) ++ ('}' :: rest)) from by
          rw [hDM]; simp]
      rw [parseMembers_dumps (kv :: kvs2) g [] rest (by simp) hgm (by simp)]
termination_by fsize v
decreasing_by
  all_goals simp_wf
  all_goals subst_vars
  all_goals (simp [fsize, esize, msize]; try omega)

/-- Round-trip for one or more serialized array elements. -/
theorem parseElems_dumps (xs : List Json) (g : Nat) (w rest : Str)
    (hne : xs ≠ []) (hxs : goodList xs = true) (hw : ∀ c ∈ w, isJsonWs c = true) :
    parseElems (esize xs + g + 1) (w ++ (dumpsList xs ++ (']' :: rest))) =
      some (xs, rest) := by
  cases xs with
  | nil => exact absurd rfl hne
  | cons x xs2 =>
    have hgx : goodJson x = true ∧ goodList xs2 = true := by
      simp only [goodList, Bool.and_eq_true] at hxs
      exact hxs
    cases xs2 with
    | nil =>
      rw [show esize [x] + g + 1 = (fsize x + g + 1) + 1 from by
        simp [esize]; omega]
      rw [parseElems.eq_def]
      dsimp only
      rw [show w ++ (dumpsList [x] ++ (']' :: rest)) =
        w ++ (dumps x ++ (']' :: rest)) from by rw [dumpsList]]
      rw [parseVal_dumps x g w (']' :: rest) hgx.1 hw
        (head_not_digit_cons (by decide) rest)]
      dsimp only
      rw [skipWs_cons_false _ (by decide)]
      dsimp only
      rw [if_pos rfl]
    | cons y ys =>
      rw [show esize (x :: y :: ys) + g + 1 =
        (fsize x + (esize (y :: ys) + g) + 1) + 1 from by simp [esize]; omega]
      rw [parseElems.eq_def]
      dsimp only
      rw [show w ++ (dumpsList (x :: y :: ys) ++ (']' :: rest)) =
        w ++ (dumps x ++ (',' :: ' ' ::
          (dumpsList (y :: ys) ++ (']' :: rest)))) from by
            rw [dumpsList]
            simp]
      rw [parseVal_dumps x (esize (y :: ys) + g) w _ hgx.1 hw
        (head_not_digit_cons (by decide) _)]
      dsimp only
      rw [skipWs_cons_false _ (by decide)]
      dsimp only
      rw [if_neg (by decide), if_pos rfl]
      rw [show (' ' :: (dumpsList (y :: ys) ++ (']' :: rest))) =
        [' '] ++ (dumpsList (y :: ys) ++ (']' :: rest)) from rfl]
      rw [show fsize x + (esize (y :: ys) + g) + 1 =
        esize (y :: ys) + (fsize x + g) + 1 from by omega]
      rw [parseElems_dumps (y :: ys) (fsize x + g) [' '] rest (by simp) hgx.2
        (by intro c hc; simp at hc; subst hc; decide)]
termination_by esize xs
decreasing_by
  all_goals simp_wf
  all_goals subst_vars
  all_goals (simp [fsize, esize, msize]; try omega)

/-- Round-trip for one or more serialized object members. -/
theorem parseMembers_dumps (kvs : List (Str × Json)) (g : Nat) (w rest : Str)
    (hne : kvs ≠ []) (hkvs : goodMembers kvs = true)
    (hw : ∀ c ∈ w, isJsonWs c = true) :
    parseMembers (msize kvs + g + 1) (w ++ (dumpsMembers kvs ++ ('}' :: rest))) =
      some (kvs, rest) := by
  cases kvs with
  | nil => exact absurd rfl hne
  | cons kv kvs2 =>
    have hgkv : goodStr kv.1 = true ∧ goodJson kv.2 = true ∧
        goodMembers kvs2 = true := by
      simp only [goodMembers, Bool.and_eq_true] at hkvs
      exact ⟨hkvs.1.1, hkvs.1.2, hkvs.2⟩
    cases kvs2 with
    | nil =>
      rw [show msize [kv] + g + 1 = (fsize kv.2 + g + 1) + 1 from by
        simp [msize]; omega]
      rw [parseMembers.eq_def]
      dsimp only
      rw [show w ++ (dumpsMembers [kv] ++ ('}' :: rest)) =
        w ++ ('"' :: (escBody kv.1 ++ ('"' :: (':' ::
          (' ' :: (dumps kv.2 ++ ('}' :: rest))))))) from by
            rw [dumpsMembers]
            simp [dumpStr]]
      rw [skipWs_all_append _ hw, skipWs_cons_false _ (by decide)]
      dsimp only
      rw [if_pos rfl]
      rw [parseStrBody_escBody kv.1 _ hgkv.1]
      dsimp only
      rw [skipWs_cons_false _ (by decide)]
      dsimp only
      rw [if_pos rfl]
      rw [show (' ' :: (dumps kv.2 ++ ('}' :: rest))) =
        [' '] ++ (dumps kv.2 ++ ('}' :: rest)) from rfl]
      rw [parseVal_dumps kv.2 g [' '] ('}' :: rest) hgkv.2.1
        (by intro c hc; simp at hc; subst hc; decide)
        (head_not_digit_cons (by decide) rest)]
      dsimp only
      rw [skipWs_cons_false _ (by decide)]
      dsimp only
      rw [if_pos rfl]
    | cons kv2 kvss =>
      rw [show msize (kv :: kv2 :: kvss) + g + 1 =
        (fsize kv.2 + (msize (kv2 :: kvss) + g) + 1) + 1 from by
          simp [msize]; omega]
      rw [parseMembers.eq_def]
      dsimp only
      rw [show w ++ (dumpsMembers (kv :: kv2 :: kvss) ++ ('}' :: rest)) =
        w ++ ('"' :: (escBody kv.1 ++ ('"' :: (':' :: (' ' :: (dumps kv.2 ++
          (',' :: (' ' :: (dumpsMembers (kv2 :: kvss) ++
            ('}' :: rest)))))))))) from by
              rw [dumpsMembers]
              simp [dumpStr]]
      rw [skipWs_all_append _ hw, skipWs_cons_false _ (by decide)]
      dsimp only
      rw [if_pos rfl]
      rw [parseStrBody_escBody kv.1 _ hgkv.1]
      dsimp only
      rw [skipWs_cons_false _ (by decide)]
      dsimp only
      rw [if_pos rfl]
      rw [show (' ' :: (dumps kv.2 ++ (',' :: (' ' ::
        (dumpsMembers (kv2 :: kvss) ++ ('}' :: rest)))))) =
        [' '] ++ (dumps kv.2 ++ (',' :: (' ' ::
          (dumpsMembers (kv2 :: kvss) ++ ('}' :: rest))))) from rfl]
      rw [parseVal_dumps kv.2 (msize (kv2 :: kvss) + g) [' '] _ hgkv.2.1
        (by intro c hc; simp at hc; subst hc; decide)
        (head_not_digit_cons (by decide) _)]
      dsimp only
      rw [skipWs_cons_false _ (by decide)]
      dsimp only
      rw [if_neg (by decide), if_pos rfl]
      rw [show (' ' :: (dumpsMembers (kv2 :: kvss) ++ ('}' :: rest))) =
        [' '] ++ (dumpsMembers (kv2 :: kvss) ++ ('}' :: rest)) from rfl]
      rw [show fsize kv.2 + (msize (kv2 :: kvss) + g) + 1 =
        msize (kv2 :: kvss) + (fsize kv.2 + g) + 1 from by omega]
      rw [parseMembers_dumps (kv2 :: kvss) (fsize kv.2 + g) [' '] rest (by simp)
        hgkv.2.2 (by intro c hc; simp at hc; subst hc; decide)]
termination_by msize kvs
decreasing_by
  all_goals simp_wf
  all_goals subst_vars
  all_goals (simp [fsize, esize, msize]; try omega)
end

mutual
/-- The parser fuel bound is covered by the serialized length. -/
theorem fsize_le_dumps (v : Json) : fsize v ≤ (dumps v).length := by
  cases v with
  | null => simp [fsize, dumps]
  | bool b => cases b <;> simp [fsize, dumps]
  | num n =>
    have h0 := (natToDec_spec n.toNat).1
    have h1 := (natToDec_spec n.natAbs).1
    show fsize (.num n) ≤ (intRepr n).length
    rw [fsize, intRepr]
    by_cases hn : n < 0
    · rw [if_pos hn]
      simp only [List.length_cons]
      omega
    · rw [if_neg hn]
      cases hD : natToDec n.toNat with
      | nil => exact absurd hD h0
      | cons c r => simp
  | str s =>
    show fsize (.str s) ≤ (dumpStr s).length
    rw [fsize, dumpStr]
    simp
  | arr xs =>
    have h := esize_le_dumpsList xs
    show fsize (.arr xs) ≤ ('[' :: dumpsList xs ++ [']']).length
    rw [fsize]
    simp only [List.length_cons, List.length_append, List.length_singleton]
    omega
  | obj kvs =>
    have h := msize_le_dumpsMembers kvs
    show fsize (.obj kvs) ≤ ('{' :: dumpsMembers kvs ++ ['}']).length
    rw [fsize]
    simp only [List.length_cons, List.length_append, List.length_singleton]
    omega
termination_by fsize v
decreasing_by
  all_goals simp_wf
  all_goals subst_vars
  all_goals (simp [fsize, esize, msize]; try omega)

/-- Length bound for serialized array elements. -/
theorem esize_le_dumpsList (xs : List Json) :
    esize xs ≤ (dumpsList xs).length + 1 := by
  cases xs with
  | nil => simp [esize, dumpsList]
  | cons x xs2 =>
    have hx := fsize_le_dumps x
    cases xs2 with
    | nil =>
      show esize [x] ≤ (dumps x).length + 1
      rw [esize, esize]
      omega
    | cons y ys =>
      have hys := esize_le_dumpsList (y :: ys)
      show esize (x :: y :: ys) ≤
        (dumps x ++ ", ".toList ++ dumpsList (y :: ys)).length + 1
      rw [esize]
      simp only [List.length_append]
      have : (", ".toList : Str).length = 2 := rfl
      omega
termination_by esize xs
decreasing_by
  all_goals simp_wf
  all_goals subst_vars
  all_goals (simp [fsize, esize, msize]; try omega)

/-- Length bound for serialized object members. -/
theorem msize_le_dumpsMembers (kvs : List (Str × Json)) :
    msize kvs ≤ (dumpsMembers kvs).length + 1 := by
  cases kvs with
  | nil => simp [msize, dumpsMembers]
  | cons kv kvs2 =>
    have hv := fsize_le_dumps kv.2
    cases kvs2 with
    | nil =>
      show msize [kv] ≤ (dumpStr kv.1 ++ ": ".toList ++ dumps kv.2).length + 1
      rw [msize, msize]
      simp only [List.length_append]
      omega
    | cons kv2 kvss =>
      have hks := msize_le_dumpsMembers (kv2 :: kvss)
      show msize (kv :: kv2 :: kvss) ≤
        (dumpStr kv.1 ++ ": ".toList ++ dumps kv.2 ++ ", ".toList ++
          dumpsMembers (kv2 :: kvss)).length + 1
      rw [msize]
      simp only [List.length_append]
      have h2 : (": ".toList : Str).length = 2 := rfl
      have h3 : (", ".toList : Str).length = 2 := rfl
      omega
termination_by msize kvs
decreasing_by
  all_goals simp_wf
  all_goals subst_vars
  all_goals (simp [fsize, esize, msize]; try omega)
end

/-- Round-trip at the loads level: any good value is recovered from its `json.dumps`
serialization. -/
theorem json_loads_dumps (v : Json) (hv : goodJson v = true) :
    json_loads (dumps v) = some v := by
  unfold json_loads
  have hb := fsize_le_dumps v
  have hrt := parseVal_dumps v ((dumps v).length - fsize v) [] [] hv
    (by simp) (by intro c hc; simp at hc)
  simp only [List.nil_append, List.append_nil] at hrt
  rw [show (dumps v).length + 1 = fsize v + ((dumps v).length - fsize v) + 1
    from by omega]
  rw [hrt]
  rfl

/-! ### Extraction of serialized objects, plain and fenced -/

theorem pyStrip_dumps_obj (kvs : List (Str × Json)) :
    pyStrip (dumps (.obj kvs)) = dumps (.obj kvs) := by
  apply pyStrip_eq_self
  · intro c hc
    rw [show dumps (.obj kvs) = '{' :: (dumpsMembers kvs ++ ['}']) from rfl] at hc
    simp only [List.head?_cons, Option.some_inj] at hc
    subst hc
    decide
  · intro c hc
    rw [show dumps (.obj kvs) = ('{' :: dumpsMembers kvs) ++ ['}'] from rfl,
      List.getLast?_concat] at hc
    simp only [Option.some_inj] at hc
    subst hc
    decide

theorem braceSpan_dumps_obj (kvs : List (Str × Json)) :
    braceSpan (dumps (.obj kvs)) = some (dumps (.obj kvs)) := by
  have h := braceSpan_of_shape [] (dumpsMembers kvs) [] (by simp) (by simp)
  simpa using h

theorem headMatch_json_fence_dumps_obj (kvs : List (Str × Json)) :
    headMatch "```json".toList (dumps (.obj kvs)) = false := by
  rw [show ("```json".toList : Str) = '`' :: "``json".toList from rfl,
    show dumps (.obj kvs) = '{' :: (dumpsMembers kvs ++ ['}']) from rfl]
  exact headMatch_ne_first _ _ (by decide)

theorem headMatch_fence_dumps_obj (kvs : List (Str × Json)) :
    headMatch "```".toList (dumps (.obj kvs)) = false := by
  rw [show ("```".toList : Str) = '`' :: "``".toList from rfl,
    show dumps (.obj kvs) = '{' :: (dumpsMembers kvs ++ ['}']) from rfl]
  exact headMatch_ne_first _ _ (by decide)

/-- The extractor recovers a serialized object given unwrapped. -/
theorem extract_dumps_obj (kvs : List (Str × Json))
    (hv : goodJson (.obj kvs) = true) :
    extract_json_from_response (dumps (.obj kvs)) = some (.obj kvs) := by
  simp only [extract_json_from_response]
  rw [pyStrip_dumps_obj, headMatch_json_fence_dumps_obj,
    headMatch_fence_dumps_obj]
  simp only [Bool.false_eq_true, if_false]
  rw [braceSpan_dumps_obj]
  dsimp only
  rw [pyStrip_dumps_obj, json_loads_dumps _ hv]

/-- Strip is the identity on a backtick-delimited block. -/
theorem pyStrip_backtick_wrap (mid : Str) :
    pyStrip ('`' :: mid ++ ['`']) = '`' :: mid ++ ['`'] := by
  apply pyStrip_eq_self
  · intro c hc
    simp only [List.cons_append, List.head?_cons, Option.some_inj] at hc
    subst hc
    decide
  · intro c hc
    rw [show ('`' :: mid ++ ['`'] : Str) = ('`' :: mid) ++ ['`'] from rfl,
      List.getLast?_concat] at hc
    simp only [Option.some_inj] at hc
    subst hc
    decide

/-- The extractor recovers a serialized object wrapped in a
language-tagged markdown fence. -/
theorem extract_dumps_obj_json_fenced (kvs : List (Str × Json))
    (hv : goodJson (.obj kvs) = true)
    (hb : ∀ c ∈ dumps (.obj kvs), c ≠ '`') :
    extract_json_from_response
      ("```json\n".toList ++ (dumps (.obj kvs) ++ "\n```".toList)) =
      some (.obj kvs) := by
  set d := dumps (.obj kvs) with hd
  have hstrip : pyStrip ("```json\n".toList ++ (d ++ "\n```".toList)) =
      "```json\n".toList ++ (d ++ "\n```".toList) := by
    rw [show ("```json\n".toList ++ (d ++ "\n```".toList) : Str) =
      '`' :: ("``json\n".toList ++ (d ++ ['\n', '`', '`'])) ++ ['`'] from by
        simp]
    exact pyStrip_backtick_wrap _
  have hm1 : headMatch "```json".toList
      ("```json\n".toList ++ (d ++ "\n```".toList)) = true := by
    rw [show ("```json\n".toList ++ (d ++ "\n```".toList) : Str) =
      "```json".toList ++ ('\n' :: (d ++ "\n```".toList)) from rfl]
    exact headMatch_append _ _
  have hnb : ∀ c ∈ ('\n' :: d) ++ ['\n'], c ≠ '`' := by
    intro c hc
    rcases List.mem_append.mp hc with h1 | h2
    · rcases List.mem_cons.mp h1 with rfl | h3
      · decide
      · exact hb c h3
    · simp only [List.mem_singleton] at h2
      subst h2
      decide
  have hr1 : replaceAll "```json".toList []
      ("```json\n".toList ++ (d ++ "\n```".toList)) =
      (('\n' :: d) ++ ['\n']) ++ "```".toList := by
    rw [show ("```json\n".toList ++ (d ++ "\n```".toList) : Str) =
      ('`' :: "``json".toList) ++ ('\n' :: (d ++ "\n```".toList)) from rfl,
      show ("```json".toList : Str) = '`' :: "``json".toList from rfl,
      replaceAll_head]
    rw [show ('\n' :: (d ++ "\n```".toList) : Str) =
      (('\n' :: d) ++ ['\n']) ++ "```".toList from by simp]
    rw [replaceAll_skip _ _ _ _ hnb]
    rw [show replaceAll ('`' :: "``json".toList) [] "```".toList =
      "```".toList from rfl]
    simp
  have hr2 : replaceAll "```".toList []
      ((('\n' :: d) ++ ['\n']) ++ "```".toList) = ('\n' :: d) ++ ['\n'] := by
    rw [show ("```".toList : Str) = '`' :: "``".toList from rfl,
      replaceAll_skip _ _ _ _ hnb]
    rw [show replaceAll ('`' :: "``".toList) [] ('`' :: "``".toList) = []
      from rfl]
    simp
  have hspan : braceSpan (('\n' :: d) ++ ['\n']) = some d := by
    rw [show ((('\n' :: d) ++ ['\n']) : Str) =
      ['\n'] ++ ('{' :: dumpsMembers kvs ++ ['}']) ++ ['\n'] from by
        rw [hd]
        simp [dumps]]
    rw [braceSpan_of_shape ['\n'] (dumpsMembers kvs) ['\n']
      (by intro c hc; simp at hc; subst hc; decide)
      (by intro c hc; simp at hc; subst hc; decide)]
    rw [hd]
    rfl
  simp only [extract_json_from_response]
  rw [hstrip, hm1]
  simp only [if_true]
  rw [hr1, hr2, hspan]
  dsimp only
  rw [hd, pyStrip_dumps_obj, json_loads_dumps _ hv]

/-- The extractor recovers a serialized object wrapped in a bare
markdown fence. -/
theorem extract_dumps_obj_bare_fenced (kvs : List (Str × Json))
    (hv : goodJson (.obj kvs) = true)
    (hb : ∀ c ∈ dumps (.obj kvs), c ≠ '`') :
    extract_json_from_response
      ("```\n".toList ++ (dumps (.obj kvs) ++ "\n```".toList)) =
      some (.obj kvs) := by
  set d := dumps (.obj kvs) with hd
  have hstrip : pyStrip ("```\n".toList ++ (d ++ "\n```".toList)) =
      "```\n".toList ++ (d ++ "\n```".toList) := by
    rw [show ("```\n".toList ++ (d ++ "\n```".toList) : Str) =
      '`' :: ("``\n".toList ++ (d ++ ['\n', '`', '`'])) ++ ['`'] from by
        simp]
    exact pyStrip_backtick_wrap _
  have hm1 : headMatch "```json".toList
      ("```\n".toList ++ (d ++ "\n```".toList)) = false := by
    rw [show ("```\n".toList ++ (d ++ "\n```".toList) : Str) =
      '`' :: '`' :: '`' :: '\n' :: (d ++ "\n```".toList) from rfl,
      show ("```json".toList : Str) =
        '`' :: '`' :: '`' :: 'j' :: "son".toList from rfl]
    simp [headMatch]
  have hm2 : headMatch "```".toList
      ("```\n".toList ++ (d ++ "\n```".toList)) = true := by
    rw [show ("```\n".toList ++ (d ++ "\n```".toList) : Str) =
      "```".toList ++ ('\n' :: (d ++ "\n```".toList)) from rfl]
    exact headMatch_append _ _
  have hnb : ∀ c ∈ ('\n' :: d) ++ ['\n'], c ≠ '`' := by
    intro c hc
    rcases List.mem_append.mp hc with h1 | h2
    · rcases List.mem_cons.mp h1 with rfl | h3
      · decide
      · exact hb c h3
    · simp only [List.mem_singleton] at h2
      subst h2
      decide
  have hr2 : replaceAll "```".toList []
      ("```\n".toList ++ (d ++ "\n```".toList)) = ('\n' :: d) ++ ['\n'] := by
    rw [show ("```\n".toList ++ (d ++ "\n```".toList) : Str) =
      ('`' :: "``".toList) ++ ('\n' :: (d ++ "\n```".toList)) from rfl,
      show ("```".toList : Str) = '`' :: "``".toList from rfl,
      replaceAll_head]
    rw [show ('\n' :: (d ++ "\n```".toList) : Str) =
      (('\n' :: d) ++ ['\n']) ++ "```".toList from by simp]
    rw [replaceAll_skip _ _ _ _ hnb]
    rw [show replaceAll ('`' :: "``".toList) [] "```".toList = [] from rfl]
    simp
  have hspan : braceSpan (('\n' :: d) ++ ['\n']) = some d := by
    rw [show ((('\n' :: d) ++ ['\n']) : Str) =
      ['\n'] ++ ('{' :: dumpsMembers kvs ++ ['}']) ++ ['\n'] from by
        rw [hd]
        simp [dumps]]
    rw [braceSpan_of_shape ['\n'] (dumpsMembers kvs) ['\n']
      (by intro c hc; simp at hc; subst hc; decide)
      (by intro c hc; simp at hc; subst hc; decide)]
    rw [hd]
    rfl
  simp only [extract_json_from_response]
  rw [hstrip, hm1]
  simp only [Bool.false_eq_true, if_false]
  rw [hm2]
  simp only [if_true]
  rw [hr2, hspan]
  dsimp only
  rw [hd, pyStrip_dumps_obj, json_loads_dumps _ hv]

/-- The extractor returns exactly the first successful `json.loads`
among its candidate strings, and `none` iff every candidate fails:
each internal parse failure falls through to the next strategy. -/
theorem extract_candidates_spec (text0 : Str) :
    (extract_json_from_response text0 = none ↔
      ∀ s ∈ extractCandidates text0, json_loads s = none) ∧
    (∀ v, extract_json_from_response text0 = some v →
      ∃ s ∈ extractCandidates text0, json_loads s = some v) := by
  simp only [extract_json_from_response, extractCandidates]
  obtain ⟨t, ht⟩ : ∃ t,
      (if headMatch "```json".toList (pyStrip text0) = true then
        replaceAll "```".toList [] (replaceAll "```json".toList [] (pyStrip text0))
      else if headMatch "```".toList (pyStrip text0) = true then
        replaceAll "```".toList [] (pyStrip text0)
      else pyStrip text0) = t := ⟨_, rfl⟩
  rw [ht]
  cases hbs : braceSpan t with
  | none =>
    cases hjl : json_loads t <;> simp [hjl]
  | some m =>
    cases h1 : json_loads (pyStrip m) with
    | some v => simp [h1]
    | none =>
      cases h2 : json_loads
          (replaceAll ['\t'] ['\\', 't']
            (replaceAll ['\n'] ['\\', 'n'] (pyStrip m))) with
      | some v => simp [h1, h2]
      | none =>
        cases hjl : json_loads t <;> simp [h1, h2, hjl]

/-! ### Orchestrator lemmas -/

theorem keyCheck_obj (kvs : List (Str × Json)) :
    keyCheck (.obj kvs) =
      .ok (objMem kvs rkey && (objMem kvs dkey && objMem kvs ckey)) := by
  unfold keyCheck pyIn
  cases h1 : objMem kvs rkey <;>
    cases h2 : objMem kvs dkey <;>
      cases h3 : objMem kvs ckey <;>
        simp [bind, Except.bind, h1, h2, h3]

/-- Every terminal event `processBody` builds is a done or the constant
internal-error event. -/
theorem processBody_cases (p s : Str) :
    (∃ pay, processBody p s = .done pay) ∨
      processBody p s = internalErrorEvent := by
  unfold processBody
  split
  · exact Or.inl ⟨_, rfl⟩
  split
  · split
    · exact Or.inr rfl
    · exact Or.inl ⟨_, rfl⟩
    · split
      · exact Or.inl ⟨_, rfl⟩
      · exact Or.inr rfl
  · exact Or.inl ⟨_, rfl⟩

theorem processBody_terminal (p s : Str) :
    isTerminalEvent (processBody p s) = true := by
  rcases processBody_cases p s with ⟨pay, h⟩ | h <;> rw [h] <;> rfl

/-- When extraction fails, or yields an object missing one of the three
required keys, the terminal event is a done event carrying the fallback
artifact. -/
theorem processBody_fallback (p s : Str)
    (h : extract_json_from_response s = none ∨
      ∃ kvs, extract_json_from_response s = some (.obj kvs) ∧
        (objMem kvs rkey = false ∨ objMem kvs dkey = false ∨
          objMem kvs ckey = false)) :
    processBody p s = .done (.fallback (fallback_response p s)) := by
  unfold processBody
  rcases h with h | ⟨kvs, h, hmiss⟩
  · rw [h]
  · rw [h]
    dsimp only
    by_cases ht : truthy (.obj kvs) = true
    · rw [if_pos ht, keyCheck_obj]
      have : (objMem kvs rkey && (objMem kvs dkey && objMem kvs ckey)) =
          false := by
        rcases hmiss with h1 | h2 | h3
        · simp [h1]
        · simp [h2]
        · simp [h3]
      rw [this]
    · rw [if_neg ht]

theorem event_stream_content (p s : Str) (env : Json)
    (sn : Except PyErr (List Str)) (h : getContent env = some (.str s)) :
    event_stream p (.ok env) sn = [.status genMessage, processBody p s] := by
  unfold event_stream
  dsimp only
  rw [h]

/-- Outcome classes where the buffered attempt fails: the HTTP call
raised, or the envelope lacked the content path. -/
def bufferedFails : Except PyErr Json → Prop
  | .error _ => True
  | .ok env => getContent env = none

theorem event_stream_retry (p : Str) (cRes : Except PyErr Json)
    (sn : Except PyErr (List Str)) (hfail : bufferedFails cRes) :
    event_stream p cRes sn =
      .status genMessage :: retryEvents p sn := by
  unfold event_stream
  cases cRes with
  | error e => rfl
  | ok env =>
    have h : getContent env = none := hfail
    dsimp only
    rw [h]

theorem retryEvents_shape (p : Str) (sn : Except PyErr (List Str)) :
    ∃ last, retryEvents p sn = [.status procMessage, last] ∧
      isTerminalEvent last = true := by
  unfold retryEvents
  cases h : runStream sn with
  | ok s => exact ⟨processBody p s, rfl, processBody_terminal p s⟩
  | error e =>
    refine ⟨errorEventFor e, rfl, ?_⟩
    cases e <;> rfl

theorem event_stream_content_other (p : Str) (env v : Json)
    (sn : Except PyErr (List Str)) (hc : getContent env = some v)
    (hv : ∀ s, v ≠ .str s) :
    event_stream p (.ok env) sn = [.status genMessage, internalErrorEvent] := by
  unfold event_stream
  dsimp only
  rw [hc]
  cases v with
  | str s => exact absurd rfl (hv s)
  | null => rfl
  | bool b => rfl
  | num n => rfl
  | arr xs => rfl
  | obj kvs => rfl

/-- Every event stream is a nonempty list of status events followed by
one terminal event. -/
theorem event_stream_shape (p : Str) (cRes : Except PyErr Json)
    (sn : Except PyErr (List Str)) :
    ∃ pre last, event_stream p cRes sn = pre ++ [last] ∧ pre ≠ [] ∧
      (∀ e ∈ pre, isStatusEvent e = true) ∧ isTerminalEvent last = true := by
  by_cases hfail : bufferedFails cRes
  · obtain ⟨last, hr, hterm⟩ := retryEvents_shape p sn
    refine ⟨[.status genMessage, .status procMessage], last, ?_, by simp,
      ?_, hterm⟩
    · rw [event_stream_retry p cRes sn hfail, hr]
      rfl
    · intro e he
      simp at he
      rcases he with rfl | rfl <;> rfl
  · cases cRes with
    | error e => exact absurd trivial hfail
    | ok env =>
      cases hc : getContent env with
      | none => exact absurd hc hfail
      | some v =>
        by_cases hstr : ∃ s, v = .str s
        · obtain ⟨s, rfl⟩ := hstr
          rw [event_stream_content p s env sn hc]
          exact ⟨[.status genMessage], processBody p s, rfl, by simp,
            by intro e he; simp at he; subst he; rfl,
            processBody_terminal p s⟩
        · rw [event_stream_content_other p env v sn hc
            (fun s hs => hstr ⟨s, hs⟩)]
          exact ⟨[.status genMessage], internalErrorEvent, rfl, by simp,
            by intro e he; simp at he; subst he; rfl, rfl⟩

/-! ### Stream accumulation reference semantics -/

/-- A line that terminates the accumulation. -/
def isTermLine (line : Str) : Bool :=
  !line.isEmpty && (headMatch dataMarker line &&
    (pyStrip line == doneLine))

/-- The content delta a line contributes, when it is well-formed. -/
def lineContent (line : Str) : Option Str :=
  if line.isEmpty then none
  else if headMatch dataMarker line then
    if pyStrip line == doneLine then none
    else
      match json_loads (line.drop 6) with
      | none => none
      | some d =>
        match lineDelta d with
        | .ok (some s) => some s
        | _ => none
  else none

/-- A line whose processing does not raise: anything except a data line
that parses as JSON but has an unexpected envelope shape. -/
def lineSafe (line : Str) : Bool :=
  line.isEmpty || (!headMatch dataMarker line ||
    ((pyStrip line == doneLine) ||
      (match json_loads (line.drop 6) with
       | none => true
       | some d =>
         match lineDelta d with
         | .error _ => false
         | .ok _ => true)))

/-- Reference fold: concatenation, in arrival order, of the content of
the lines before the first terminator. -/
def refConcat : List Str → Str
  | [] => []
  | line :: rest =>
    if isTermLine line then []
    else (lineContent line).getD [] ++ refConcat rest

/-- On safe lines the accumulation loop returns the in-order
concatenation of the content deltas up to the terminator, skipping
JSON-malformed lines and never discarding what was accumulated. -/
theorem streamAccum_spec (lines : List Str) :
    ∀ acc, (∀ l ∈ lines, lineSafe l = true) →
      streamAccum lines acc = .ok (acc ++ refConcat lines) := by
  induction lines with
  | nil =>
    intro acc _
    simp [streamAccum, refConcat]
  | cons line rest ih =>
    intro acc hsafe
    have hrest : ∀ l ∈ rest, lineSafe l = true :=
      fun l hl2 => hsafe l (by simp [hl2])
    unfold streamAccum refConcat
    by_cases he : line.isEmpty = true
    · rw [if_pos he, ih acc hrest]
      simp [isTermLine, lineContent, he]
    · rw [if_neg he]
      by_cases hdm : headMatch dataMarker line = true
      · rw [if_pos hdm]
        by_cases hterm : (pyStrip line == doneLine) = true
        · rw [if_pos hterm]
          have : isTermLine line = true := by
            simp [isTermLine, he, hdm, hterm]
          rw [this]
          simp
        · rw [if_neg hterm]
          have hnt : isTermLine line = false := by
            simp only [isTermLine, Bool.and_eq_false_iff] at *
            simp [hterm]
          rw [hnt]
          simp only [Bool.false_eq_true, if_false]
          cases hjl : json_loads (line.drop 6) with
          | none =>
            rw [ih acc hrest]
            simp [lineContent, he, hdm, hterm, hjl]
          | some d =>
            cases hld : lineDelta d with
            | error u =>
              exfalso
              have := hsafe line (by simp)
              simp only [lineSafe, he, hdm, hterm, hjl, hld,
                Bool.false_or, Bool.or_eq_true] at this
              simp at this
            | ok oc =>
              cases oc with
              | none =>
                rw [ih acc hrest]
                simp [lineContent, he, hdm, hterm, hjl, hld]
              | some s =>
                dsimp only
                rw [hld]
                dsimp only
                rw [ih (acc ++ s) hrest]
                simp [lineContent, he, hdm, hterm, hjl, hld]
      · rw [if_neg hdm]
        rw [ih acc hrest]
        simp [isTermLine, lineContent, he, hdm]

/-- A stream of empty, non-data, terminator, or JSON-malformed lines
yields the empty completion rather than raising. -/
theorem streamAccum_no_content (lines : List Str)
    (h : ∀ l ∈ lines, l.isEmpty = true ∨
      headMatch dataMarker l = false ∨
      (pyStrip l == doneLine) = true ∨
      json_loads (l.drop 6) = none) :
    query_groq_stream lines = .ok [] := by
  unfold query_groq_stream
  suffices hs : ∀ acc, streamAccum lines acc = .ok acc from hs []
  induction lines with
  | nil => intro acc; rfl
  | cons line rest ih =>
    intro acc
    have hrest : ∀ l ∈ rest, List.isEmpty l = true ∨
        headMatch dataMarker l = false ∨ (pyStrip l == doneLine) = true ∨
        json_loads (l.drop 6) = none :=
      fun l hl2 => h l (List.mem_cons_of_mem _ hl2)
    have hline := h line (by simp)
    unfold streamAccum
    rcases hline with he | hdm | hterm | hjl
    · rw [if_pos he]
      exact ih hrest acc
    · by_cases he2 : line.isEmpty = true
      · rw [if_pos he2]
        exact ih hrest acc
      · rw [if_neg he2, hdm]
        simp only [Bool.false_eq_true, if_false]
        exact ih hrest acc
    · by_cases he2 : line.isEmpty = true
      · rw [if_pos he2]
        exact ih hrest acc
      · rw [if_neg he2]
        by_cases hdm2 : headMatch dataMarker line = true
        · rw [if_pos hdm2, if_pos hterm]
        · rw [if_neg hdm2]
          exact ih hrest acc
    · by_cases he2 : line.isEmpty = true
      · rw [if_pos he2]
        exact ih hrest acc
      · rw [if_neg he2]
        by_cases hdm2 : headMatch dataMarker line = true
        · rw [if_pos hdm2]
          by_cases hterm2 : (pyStrip line == doneLine) = true
          · rw [if_pos hterm2]
          · rw [if_neg hterm2, hjl]
            exact ih hrest acc
        · rw [if_neg hdm2]
          exact ih hrest acc

/-! ### Cleaning and error-payload lemmas -/

theorem length_dropWhile_le (p : Char → Bool) (l : Str) :
    (l.dropWhile p).length ≤ l.length := by
  induction l with
  | nil => simp
  | cons c cs ih =>
    rw [List.dropWhile_cons]
    split
    · exact le_trans ih (by simp)
    · simp

theorem pyStrip_length_le (l : Str) : (pyStrip l).length ≤ l.length := by
  unfold pyStrip
  simp only [List.length_reverse]
  calc (List.dropWhile isPySpace (List.dropWhile isPySpace l).reverse).length
      ≤ (List.dropWhile isPySpace l).reverse.length :=
        length_dropWhile_le _ _
    _ = (List.dropWhile isPySpace l).length := List.length_reverse _
    _ ≤ l.length := length_dropWhile_le _ _

theorem clean_data_spec (kvs : List (Str × Json)) :
    (clean_data kvs).repository_name.length ≤ 50 ∧
    (clean_data kvs).description.length ≤ 200 ∧
    (∀ s, objGet kvs rkey (.str []) = .str s →
      (clean_data kvs).repository_name = (pyStrip s).take 50) ∧
    (∀ s, objGet kvs dkey (.str []) = .str s →
      (clean_data kvs).description = (pyStrip s).take 200) ∧
    (∀ s, objGet kvs ckey (.str []) = .str s →
      (clean_data kvs).readme_content = pyStrip s ∧
        (clean_data kvs).readme_content.length ≤ s.length) := by
  refine ⟨?_, ?_, ?_, ?_, ?_⟩
  · simp only [clean_data, List.length_take]
    omega
  · simp only [clean_data, List.length_take]
    omega
  · intro s hs
    simp only [clean_data, hs, pyStr]
  · intro s hs
    simp only [clean_data, hs, pyStr]
  · intro s hs
    simp only [clean_data, hs, pyStr]
    exact ⟨by simp, pyStrip_length_le s⟩

theorem objMem_ne_nil {kvs : List (Str × Json)} {k : Str}
    (h : objMem kvs k = true) : kvs ≠ [] := by
  intro hk
  subst hk
  simp [objMem] at h

/-- The valid branch: extraction gave an object carrying all three
required keys, so the terminal event carries the cleaned artifact. -/
theorem processBody_clean (p s : Str) (kvs : List (Str × Json))
    (h : extract_json_from_response s = some (.obj kvs))
    (h1 : objMem kvs rkey = true) (h2 : objMem kvs dkey = true)
    (h3 : objMem kvs ckey = true) :
    processBody p s = .done (.clean (clean_data kvs)) := by
  unfold processBody
  rw [h]
  dsimp only
  have ht : truthy (.obj kvs) = true := by
    have := objMem_ne_nil h1
    simp [truthy, this]
  rw [if_pos ht, keyCheck_obj, h1, h2, h3]
  rfl

/-- Every error event the stream can emit has one of the three constant
payloads; in particular no raised exception's text reaches the caller. -/
theorem event_stream_error_payloads (p : Str) (cRes : Except PyErr Json)
    (sn : Except PyErr (List Str)) (msg code : Str)
    (h : Event.errorEv msg code ∈ event_stream p cRes sn) :
    (msg = "Request timeout - please try again".toList ∧
      code = "TIMEOUT".toList) ∨
    (msg = "AI service temporarily unavailable".toList ∧
      code = "API_ERROR".toList) ∨
    (msg = "Internal server error".toList ∧
      code = "INTERNAL_ERROR".toList) := by
  have hx : ∀ s2, Event.errorEv msg code = processBody p s2 →
      msg = "Internal server error".toList ∧
        code = "INTERNAL_ERROR".toList := by
    intro s2 he
    rcases processBody_cases p s2 with ⟨pay, hp⟩ | hp
    · rw [hp] at he
      exact absurd he (by simp)
    · rw [hp] at he
      have : Event.errorEv msg code = internalErrorEvent := he
      simp only [internalErrorEvent, Event.errorEv.injEq] at this
      exact this
  by_cases hfail : bufferedFails cRes
  · rw [event_stream_retry p cRes sn hfail] at h
    unfold retryEvents at h
    simp only [List.mem_cons] at h
    rcases h with h | h
    · exact absurd h (by simp)
    rcases h with h | h
    · exact absurd h (by simp)
    cases hr : runStream sn with
    | ok s2 =>
      rw [hr] at h
      simp only [List.mem_singleton] at h
      exact Or.inr (Or.inr (hx s2 h))
    | error e =>
      rw [hr] at h
      simp only [List.mem_singleton] at h
      cases e with
      | timeout =>
        simp only [errorEventFor, timeoutEvent, Event.errorEv.injEq] at h
        exact Or.inl h
      | reqError m =>
        simp only [errorEventFor, apiErrorEvent, Event.errorEv.injEq] at h
        exact Or.inr (Or.inl h)
      | other m =>
        simp only [errorEventFor, internalErrorEvent, Event.errorEv.injEq] at h
        exact Or.inr (Or.inr h)
  · cases cRes with
    | error e => exact absurd trivial hfail
    | ok env =>
      cases hc : getContent env with
      | none => exact absurd hc hfail
      | some v =>
        by_cases hstr : ∃ s2, v = .str s2
        · obtain ⟨s2, rfl⟩ := hstr
          rw [event_stream_content p s2 env sn hc] at h
          simp only [List.mem_cons, List.not_mem_nil, or_false] at h
          rcases h with h | h
          · exact absurd h (by simp)
          · exact Or.inr (Or.inr (hx s2 h))
        · rw [event_stream_content_other p env v sn hc
            (fun s2 hs => hstr ⟨s2, hs⟩)] at h
          simp only [List.mem_cons, List.not_mem_nil, or_false] at h
          rcases h with h | h
          · exact absurd h (by simp)
          · simp only [internalErrorEvent, Event.errorEv.injEq] at h
            exact Or.inr (Or.inr h)

/-- When the buffered call succeeds with a content leaf, the streaming
environment is never consulted: no retry happens. -/
theorem buffered_success_no_retry (p : Str) (env v : Json)
    (sn sn' : Except PyErr (List Str)) (hc : getContent env = some v) :
    event_stream p (.ok env) sn = event_stream p (.ok env) sn' := by
  by_cases hstr : ∃ s, v = .str s
  · obtain ⟨s, rfl⟩ := hstr
    rw [event_stream_content p s env sn hc, event_stream_content p s env sn' hc]
  · rw [event_stream_content_other p env v sn hc (fun s hs => hstr ⟨s, hs⟩),
      event_stream_content_other p env v sn' hc (fun s hs => hstr ⟨s, hs⟩)]

theorem isSubstring_of_parts (pat a b : Str) :
    isSubstring pat (a ++ (pat ++ b)) = true := by
  induction a with
  | nil =>
    cases pat with
    | nil => cases b <;> rfl
    | cons q ps =>
      show isSubstring (q :: ps) (q :: (ps ++ b)) = true
      unfold isSubstring
      rw [show q :: (ps ++ b) = (q :: ps) ++ b from rfl, headMatch_append]
      rfl
  | cons c cs ih =>
    show isSubstring pat (c :: (cs ++ (pat ++ b))) = true
    unfold isSubstring
    rw [ih]
    simp

/-! ### Claims -/

/-- Claim C1: for every request the orchestrator's event sequence is one
or more status events followed by exactly one terminal done/error event,
and the first event is the "generating" status, emitted for every
environment alike — in particular independently of the outcome of any
network call. -/
theorem claim_C1_event_order (p : Str) (cRes : Except PyErr Json)
    (sn : Except PyErr (List Str)) :
    (event_stream p cRes sn).head? = some (.status genMessage) ∧
    ∃ pre last, event_stream p cRes sn = pre ++ [last] ∧ pre ≠ [] ∧
      (∀ e ∈ pre, isStatusEvent e = true) ∧ isTerminalEvent last = true := by
  constructor
  · rfl
  · exact event_stream_shape p cRes sn

/-- Claim C2: the response extractor is total — it yields a parsed value
or `none` — and it returns `none` exactly when every one of its parse
candidates fails, each internal parse failure falling through to the
next strategy; a successful result always comes from one of the
candidate strings. -/
theorem claim_C2_extractor_total (text0 : Str) :
    ((extract_json_from_response text0).isSome = true ∨
      extract_json_from_response text0 = none) ∧
    (extract_json_from_response text0 = none ↔
      ∀ s ∈ extractCandidates text0, json_loads s = none) ∧
    (∀ v, extract_json_from_response text0 = some v →
      ∃ s ∈ extractCandidates text0, json_loads s = some v) := by
  refine ⟨?_, (extract_candidates_spec text0).1, (extract_candidates_spec text0).2⟩
  cases extract_json_from_response text0 with
  | none => exact Or.inr rfl
  | some v => exact Or.inl rfl

theorem claim_C2_witness :
    (extract_json_from_response "no structured data".toList = none ↔
      ∀ s ∈ extractCandidates "no structured data".toList,
        json_loads s = none) :=
  (claim_C2_extractor_total "no structured data".toList).2.1

/-- A buffered-mode envelope whose content leaf is the all-empty-fields
object response. -/
def emptyFieldsResp : Str :=
  "\x7b\x22repository_name\x22: \x22\x22, \x22description\x22: \x22\x22, \x22readme_content\x22: \x22\x22\x7d".toList

def envEmptyFields : Json :=
  .obj [("choices".toList,
    .arr [.obj [("message".toList,
      .obj [("content".toList, .str emptyFieldsResp)])]])]

/-- Claim C3 counterexample: a parsed object can carry all three
required keys with empty values — the spec's validity invariant
(non-empty-typed fields) fails — yet the orchestrator emits a done
event with the cleaned (empty-fielded) artifact, not a
FallbackArtifact. -/
theorem claim_C3_counterexample :
    extract_json_from_response emptyFieldsResp =
      some (.obj [(rkey, .str []), (dkey, .str []), (ckey, .str [])]) ∧
    processBody "a prompt".toList emptyFieldsResp =
      .done (.clean ⟨[], [], []⟩) ∧
    isFallbackDone (processBody "a prompt".toList emptyFieldsResp) = false ∧
    event_stream "a prompt".toList (.ok envEmptyFields) (.error .timeout) =
      [.status genMessage, .done (.clean ⟨[], [], []⟩)] :=
  ⟨rfl, rfl, rfl, rfl⟩

/-- Claim C3 (amended): whenever extraction returns null, or returns an
object missing one of the three required keys — which is all the code
checks: presence, not emptiness — the orchestrator emits a terminal done
event (not an error event) carrying the FallbackArtifact, whose
`readme_content` embeds the user's prompt, whose `raw_response` is the
raw output truncated to at most 500 characters, and whose `note` is
non-empty. -/
theorem claim_C3_fallback_done (p s : Str)
    (h : extract_json_from_response s = none ∨
      ∃ kvs, extract_json_from_response s = some (.obj kvs) ∧
        (objMem kvs rkey = false ∨ objMem kvs dkey = false ∨
          objMem kvs ckey = false)) :
    processBody p s = .done (.fallback (fallback_response p s)) ∧
    isSubstring p (fallback_response p s).readme_content = true ∧
    (fallback_response p s).raw_response = s.take 500 ∧
    (fallback_response p s).raw_response.length ≤ 500 ∧
    (fallback_response p s).note ≠ [] ∧
    (∀ env sn, getContent env = some (.str s) →
      event_stream p (.ok env) sn =
        [.status genMessage, .done (.fallback (fallback_response p s))]) := by
  refine ⟨processBody_fallback p s h, ?_, rfl, ?_,
    by show ("Fallback response due to JSON parsing issues".toList : Str) ≠ []
       decide, ?_⟩
  · show isSubstring p (fallbackReadme p) = true
    unfold fallbackReadme
    rw [List.append_assoc]
    exact isSubstring_of_parts p _ _
  · show (s.take 500).length ≤ 500
    simp [List.length_take]
  · intro env sn hc
    rw [event_stream_content p s env sn hc, processBody_fallback p s h]

theorem claim_C3_fallback_done_witness :
    processBody "make me a repo".toList "just prose".toList =
      .done (.fallback
        (fallback_response "make me a repo".toList "just prose".toList)) ∧
    (fallback_response "make me a repo".toList "just prose".toList).note ≠ [] :=
  ⟨(claim_C3_fallback_done "make me a repo".toList "just prose".toList
      (Or.inl rfl)).1,
    (claim_C3_fallback_done "make me a repo".toList "just prose".toList
      (Or.inl rfl)).2.2.2.2.1⟩

/-- Claim C4 counterexample: the pydantic length constraint is checked
on the raw prompt, not the trimmed one — a prompt of five characters of
which four are blanks is accepted although its trimmed length is 1. -/
theorem claim_C4_counterexample :
    (generate_repo "    a".toList (.error .timeout) (.error .timeout)).isSome
      = true ∧
    (pyStrip "    a".toList).length = 1 :=
  ⟨rfl, rfl⟩

/-- Claim C4 (amended): a generation request is accepted iff its RAW
prompt length lies in `[5, 500]`; the trim happens only afterwards,
inside the handler.  A violating request is rejected with no event
stream, and an accepted one yields exactly the orchestrator's stream on
the trimmed prompt. -/
theorem claim_C4_validation (p : Str) (cRes : Except PyErr Json)
    (sn : Except PyErr (List Str)) :
    ((generate_repo p cRes sn).isSome = true ↔
      (5 ≤ p.length ∧ p.length ≤ 500)) ∧
    (∀ evs, generate_repo p cRes sn = some evs →
      evs = event_stream (pyStrip p) cRes sn) ∧
    (¬(5 ≤ p.length ∧ p.length ≤ 500) → generate_repo p cRes sn = none) := by
  unfold generate_repo promptValid
  by_cases h : 5 ≤ p.length ∧ p.length ≤ 500
  · rw [if_pos (by simp [h.1, h.2])]
    refine ⟨by simp [h.1, h.2], ?_, fun hn => absurd h hn⟩
    intro evs hevs
    simp only [Option.some_inj] at hevs
    exact hevs.symm
  · rw [if_neg (by simpa using h)]
    refine ⟨by simpa using h, ?_, fun _ => rfl⟩
    intro evs hevs
    exact absurd hevs (by simp)

theorem claim_C4_validation_witness :
    (generate_repo "hello".toList (.error .timeout) (.error .timeout)).isSome
      = true :=
  (claim_C4_validation "hello".toList (.error .timeout)
    (.error .timeout)).1.mpr (by decide)

/-- Claim C5: on the valid-extraction branch the terminal artifact is
the cleaned one; each field is the trim of the parsed field (coerced
with `str`), the name and description are truncated to 50 and 200
characters, the readme is trimmed but never truncated and never grows,
and all three fields are kept. -/
theorem claim_C5_cleaning (p s : Str) (kvs : List (Str × Json))
    (h : extract_json_from_response s = some (.obj kvs))
    (h1 : objMem kvs rkey = true) (h2 : objMem kvs dkey = true)
    (h3 : objMem kvs ckey = true) :
    processBody p s = .done (.clean (clean_data kvs)) ∧
    (clean_data kvs).repository_name.length ≤ 50 ∧
    (clean_data kvs).description.length ≤ 200 ∧
    (∀ v, objGet kvs rkey (.str []) = .str v →
      (clean_data kvs).repository_name = (pyStrip v).take 50) ∧
    (∀ v, objGet kvs dkey (.str []) = .str v →
      (clean_data kvs).description = (pyStrip v).take 200) ∧
    (∀ v, objGet kvs ckey (.str []) = .str v →
      (clean_data kvs).readme_content = pyStrip v ∧
        (clean_data kvs).readme_content.length ≤ v.length) := by
  obtain ⟨ha, hb, hc, hd, he⟩ := clean_data_spec kvs
  exact ⟨processBody_clean p s kvs h h1 h2 h3, ha, hb, hc, hd, he⟩

def c5resp : Str :=
  "\x7b\x22repository_name\x22: \x22 my-repo \x22, \x22description\x22: \x22d\x22, \x22readme_content\x22: \x22# R\x22\x7d".toList

theorem claim_C5_cleaning_witness :
    processBody "p".toList c5resp = .done (.clean
      (clean_data [(rkey, .str " my-repo ".toList), (dkey, .str "d".toList),
        (ckey, .str "# R".toList)])) ∧
    (clean_data [(rkey, .str " my-repo ".toList), (dkey, .str "d".toList),
      (ckey, .str "# R".toList)]).repository_name.length ≤ 50 := by
  have h := claim_C5_cleaning "p".toList c5resp
    [(rkey, .str " my-repo ".toList), (dkey, .str "d".toList),
      (ckey, .str "# R".toList)] (by rfl) (by decide) (by decide) (by decide)
  exact ⟨h.1, h.2.1⟩

def c6obj : Json := .obj [(['a'], .num 1)]

def c6text : Str := "\x7b\x22a\x22: 1\x7d \x7d".toList

/-- Claim C6 counterexample: an output that merely CONTAINS a valid
serialized object is not always recovered — a stray closing brace after
the object makes the greedy first-brace-to-last-brace span unparsable,
the newline/tab repair does not help, and the direct parse of the whole
text fails, so the extractor returns null. -/
theorem claim_C6_counterexample :
    isSubstring (dumps c6obj) c6text = true ∧
    goodJson c6obj = true ∧
    json_loads (dumps c6obj) = some c6obj ∧
    extract_json_from_response c6text = none :=
  ⟨rfl, rfl, rfl, rfl⟩

/-- Claim C6 (amended): for every model output that IS the serialization
of a good JSON object — possibly wrapped in a language-tagged or bare
markdown code fence — the extractor recovers exactly that object,
provided the serialization contains no backtick (the fence stripping
removes every backtick-fence occurrence, which would corrupt such a
serialization).  The first conjunct is also the idempotence property:
re-running the extractor on the recovered object's re-serialization
yields the same object. -/
theorem claim_C6_extraction_roundtrip (kvs : List (Str × Json))
    (hv : goodJson (.obj kvs) = true)
    (hb : ∀ c ∈ dumps (.obj kvs), c ≠ '`') :
    extract_json_from_response (dumps (.obj kvs)) = some (.obj kvs) ∧
    extract_json_from_response
      ("```json\n".toList ++ (dumps (.obj kvs) ++ "\n```".toList)) =
      some (.obj kvs) ∧
    extract_json_from_response
      ("```\n".toList ++ (dumps (.obj kvs) ++ "\n```".toList)) =
      some (.obj kvs) :=
  ⟨extract_dumps_obj kvs hv,
    extract_dumps_obj_json_fenced kvs hv hb,
    extract_dumps_obj_bare_fenced kvs hv hb⟩

theorem claim_C6_extraction_roundtrip_witness :
    extract_json_from_response
      ("```json\n".toList ++
        (dumps (.obj [("a".toList, .str "b".toList)]) ++ "\n```".toList)) =
      some (.obj [("a".toList, .str "b".toList)]) :=
  (claim_C6_extraction_roundtrip [("a".toList, .str "b".toList)]
    (by decide) (by decide)).2.1

/-- Claim C7: the buffered call is tried first; if it fails in any way —
a raised exception or an envelope without the content path — a second
"processing" status event is emitted and the incremental call decides
the outcome (exactly one retry); when the buffered call succeeds the
stream environment is never consulted; and a terminal error event can
arise only from the retry's failure. -/
theorem claim_C7_buffered_then_retry (p : Str) (cRes : Except PyErr Json)
    (sn : Except PyErr (List Str)) :
    (bufferedFails cRes →
      event_stream p cRes sn = .status genMessage :: .status procMessage ::
        (match runStream sn with
         | .ok s => [processBody p s]
         | .error e => [errorEventFor e])) ∧
    (∀ env v sn', cRes = .ok env → getContent env = some v →
      event_stream p cRes sn = event_stream p cRes sn') ∧
    (∀ e, bufferedFails cRes → runStream sn = .error e →
      event_stream p cRes sn =
        [.status genMessage, .status procMessage, errorEventFor e]) := by
  refine ⟨?_, ?_, ?_⟩
  · intro hfail
    rw [event_stream_retry p cRes sn hfail]
    rfl
  · intro env v sn' hres hc
    subst hres
    exact buffered_success_no_retry p env v sn sn' hc
  · intro e hfail hr
    rw [event_stream_retry p cRes sn hfail]
    unfold retryEvents
    rw [hr]

theorem claim_C7_buffered_then_retry_witness :
    event_stream "p".toList (.error (.other "boom".toList)) (.ok []) =
      [.status genMessage, .status procMessage,
        processBody "p".toList []] :=
  (claim_C7_buffered_then_retry "p".toList (.error (.other "boom".toList))
    (.ok [])).1 trivial

/-- Claim C8 counterexample: with the buffered call failing on a
provider timeout and the retry failing on a non-timeout request error,
both completion modes are exhausted and a timeout occurred — yet the
terminal event carries API_ERROR, not TIMEOUT: the code is determined
solely by the exception class of the incremental retry. -/
theorem claim_C8_counterexample :
    event_stream "p".toList (.error .timeout)
      (.error (.reqError "conn reset".toList)) =
      [.status genMessage, .status procMessage, apiErrorEvent] ∧
    apiErrorEvent ≠ timeoutEvent :=
  ⟨rfl, by decide⟩

/-- Claim C8 (amended): after both modes are exhausted, the terminal
error code is decided by the exception class of the incremental retry
alone — its timeout gives `TIMEOUT`, its non-timeout request error gives
`API_ERROR`, anything else gives `INTERNAL_ERROR` — and every error
event the stream can ever emit carries one of the three constant
payloads, never the raised exception's text. -/
theorem claim_C8_error_codes (p : Str) (cRes : Except PyErr Json)
    (hfail : bufferedFails cRes) :
    (event_stream p cRes (.error .timeout) =
      [.status genMessage, .status procMessage,
        .errorEv "Request timeout - please try again".toList
          "TIMEOUT".toList]) ∧
    (∀ m, event_stream p cRes (.error (.reqError m)) =
      [.status genMessage, .status procMessage,
        .errorEv "AI service temporarily unavailable".toList
          "API_ERROR".toList]) ∧
    (∀ m, event_stream p cRes (.error (.other m)) =
      [.status genMessage, .status procMessage,
        .errorEv "Internal server error".toList "INTERNAL_ERROR".toList]) ∧
    (∀ cRes2 sn msg code, Event.errorEv msg code ∈ event_stream p cRes2 sn →
      (msg = "Request timeout - please try again".toList ∧
        code = "TIMEOUT".toList) ∨
      (msg = "AI service temporarily unavailable".toList ∧
        code = "API_ERROR".toList) ∨
      (msg = "Internal server error".toList ∧
        code = "INTERNAL_ERROR".toList)) := by
  refine ⟨?_, ?_, ?_, ?_⟩
  · rw [event_stream_retry p cRes _ hfail]
    rfl
  · intro m
    rw [event_stream_retry p cRes _ hfail]
    rfl
  · intro m
    rw [event_stream_retry p cRes _ hfail]
    rfl
  · intro cRes2 sn msg code h
    exact event_stream_error_payloads p cRes2 sn msg code h

theorem claim_C8_error_codes_witness :
    event_stream "p".toList (.error (.reqError "x".toList)) (.error .timeout) =
      [.status genMessage, .status procMessage,
        .errorEv "Request timeout - please try again".toList
          "TIMEOUT".toList] :=
  (claim_C8_error_codes "p".toList (.error (.reqError "x".toList)) trivial).1

def goodLine1 : Str :=
  "data: \x7b\x22choices\x22: [\x7b\x22delta\x22: \x7b\x22content\x22: \x22ab\x22\x7d\x7d]\x7d".toList

def goodLine2 : Str :=
  "data: \x7b\x22choices\x22: [\x7b\x22delta\x22: \x7b\x22content\x22: \x22cd\x22\x7d\x7d]\x7d".toList

def badShapeLine : Str := "data: \x7b\x22choices\x22: 5\x7d".toList

def oopsLine : Str := "data: oops".toList

/-- Claim C9 counterexample: a data line that parses as JSON but has a
non-container `choices` raises (`TypeError` is not caught by the
`except json.JSONDecodeError` clause), aborting the accumulation and
discarding the already-accumulated content. -/
theorem claim_C9_counterexample :
    query_groq_stream [goodLine1, badShapeLine] = .error () ∧
    json_loads (badShapeLine.drop 6) =
      some (.obj [("choices".toList, .num 5)]) :=
  ⟨rfl, rfl⟩

/-- Claim C9 (amended): over lines whose processing cannot raise — any
line that is empty, lacks the data marker, is the terminator, fails JSON
parsing, or has a well-formed envelope — the client folds the content
deltas in arrival order into one string, stops at the terminator
sentinel or the end of input, and skips JSON-malformed lines without
raising and without discarding the already-accumulated content.  Lines
that parse as JSON but have an unexpected envelope shape are NOT
skipped: they raise and abort the whole accumulation. -/
theorem claim_C9_stream_fold (lines : List Str)
    (h : ∀ l ∈ lines, lineSafe l = true) :
    query_groq_stream lines = .ok (refConcat lines) := by
  unfold query_groq_stream
  simpa using streamAccum_spec lines [] h

theorem claim_C9_stream_fold_witness :
    query_groq_stream [goodLine1, "not data".toList, oopsLine, goodLine2,
      doneLine, goodLine1] = .ok "abcd".toList := by
  have h := claim_C9_stream_fold
    [goodLine1, "not data".toList, oopsLine, goodLine2, doneLine, goodLine1]
    (by decide)
  exact h

/-- Claim C10: a streaming response with no parseable content delta —
every line empty, without the data marker, the terminator, or
JSON-malformed — returns the empty string rather than raising; hence a
request whose buffered call failed and whose stream is such ends in a
terminal done event carrying the FallbackArtifact with an empty
`raw_response` preview, not in an error event. -/
theorem claim_C10_empty_stream (p : Str) (cRes : Except PyErr Json)
    (lines : List Str) (hfail : bufferedFails cRes)
    (hlines : ∀ l ∈ lines, l.isEmpty = true ∨
      headMatch dataMarker l = false ∨ (pyStrip l == doneLine) = true ∨
      json_loads (l.drop 6) = none) :
    query_groq_stream lines = .ok [] ∧
    event_stream p cRes (.ok lines) =
      [.status genMessage, .status procMessage,
        .done (.fallback (fallback_response p []))] ∧
    (fallback_response p []).raw_response = [] := by
  have hq := streamAccum_no_content lines hlines
  refine ⟨hq, ?_, rfl⟩
  rw [event_stream_retry p cRes (.ok lines) hfail]
  unfold retryEvents runStream
  dsimp only
  rw [hq]
  dsimp only
  rw [processBody_fallback p [] (Or.inl rfl)]

theorem claim_C10_empty_stream_witness :
    event_stream "p".toList (.error .timeout) (.ok [doneLine, [], oopsLine]) =
      [.status genMessage, .status procMessage,
        .done (.fallback (fallback_response "p".toList []))] :=
  (claim_C10_empty_stream "p".toList (.error .timeout)
    [doneLine, [], oopsLine] trivial
    (by intro l hl
        simp only [List.mem_cons, List.not_mem_nil, or_false] at hl
        rcases hl with rfl | rfl | rfl
        · exact Or.inr (Or.inr (Or.inl (by decide)))
        · exact Or.inl rfl
        · exact Or.inr (Or.inr (Or.inr rfl)))).2.1
